import Mathlib

/-!
Verification development for the gdrollback peer-to-peer rollback netcode
engine. The Rust sources are shallowly embedded: pure functions become Lean
functions, stateful code becomes explicit state passing, machine integers
become Nat/Int with explicit two's-complement reductions, and fallible or
panicking code returns Option/Except.
-/

set_option maxRecDepth 8000

namespace Gdroll

/-!
## Message codec (src/udp_ext/src/messages.rs)

Bytes are modelled as Nat values (callers of write_u8 pass values < 256, as
enforced by the Rust u8 type; theorems carry the corresponding range
hypotheses). The transmute-based integer codecs are embedded as their
little-endian byte decompositions, which is what the transmutes produce on
the target platforms. f32/f64 values are modelled by their IEEE-754 bit
patterns (the codec only transmutes bits, so this is exact). Rust String
values are modelled by their UTF-8 byte content.
-/

structure OutgoingMessage where
  data : List Nat
deriving Repr, DecidableEq

def OutgoingMessage.new : OutgoingMessage := ⟨[]⟩

def OutgoingMessage.write_u8 (m : OutgoingMessage) (v : Nat) : OutgoingMessage :=
  ⟨m.data ++ [v]⟩

def OutgoingMessage.write_bool (m : OutgoingMessage) (v : Bool) : OutgoingMessage :=
  m.write_u8 (if v then 1 else 0)

/-- Two's-complement bit pattern of an integer in w-bit width (the `as uN`
cast in Rust). -/
def toBits (w : Nat) (v : Int) : Nat :=
  (v % ((2 : Int) ^ w)).toNat

/-- Reinterpret a w-bit pattern as a signed integer (the `as iN` cast). -/
def fromBits (w : Nat) (v : Nat) : Int :=
  if v < 2 ^ (w - 1) then (v : Int) else (v : Int) - (2 : Int) ^ w

def OutgoingMessage.write_i8 (m : OutgoingMessage) (v : Int) : OutgoingMessage :=
  m.write_u8 (toBits 8 v)

def OutgoingMessage.write_u16 (m : OutgoingMessage) (v : Nat) : OutgoingMessage :=
  (m.write_u8 (v % 256)).write_u8 (v / 256 % 256)

def OutgoingMessage.write_i16 (m : OutgoingMessage) (v : Int) : OutgoingMessage :=
  m.write_u16 (toBits 16 v)

def OutgoingMessage.write_u32 (m : OutgoingMessage) (v : Nat) : OutgoingMessage :=
  (m.write_u16 (v % 65536)).write_u16 (v / 65536 % 65536)

def OutgoingMessage.write_i32 (m : OutgoingMessage) (v : Int) : OutgoingMessage :=
  m.write_u32 (toBits 32 v)

def OutgoingMessage.write_u64 (m : OutgoingMessage) (v : Nat) : OutgoingMessage :=
  (m.write_u32 (v % 4294967296)).write_u32 (v / 4294967296 % 4294967296)

def OutgoingMessage.write_i64 (m : OutgoingMessage) (v : Int) : OutgoingMessage :=
  m.write_u64 (toBits 64 v)

def OutgoingMessage.write_f32 (m : OutgoingMessage) (bits : Nat) : OutgoingMessage :=
  m.write_u32 bits

def OutgoingMessage.write_f64 (m : OutgoingMessage) (bits : Nat) : OutgoingMessage :=
  m.write_u64 bits

def OutgoingMessage.write_usize (m : OutgoingMessage) (v : Nat) : OutgoingMessage :=
  m.write_u64 v

def OutgoingMessage.write_isize (m : OutgoingMessage) (v : Int) : OutgoingMessage :=
  m.write_i64 v

def OutgoingMessage.write_u8s (m : OutgoingMessage) (values : List Nat) : OutgoingMessage :=
  values.foldl (fun acc b => acc.write_u8 b) (m.write_usize values.length)

def OutgoingMessage.write_data (m : OutgoingMessage) (values : List Nat) : OutgoingMessage :=
  values.foldl (fun acc b => acc.write_u8 b) m

def OutgoingMessage.write_string (m : OutgoingMessage) (value : List Nat) : OutgoingMessage :=
  m.write_u8s value

/-- write_serializable, with the external bincode serializer abstracted as a
function enc : the repo code length-prefixes its output. -/
def OutgoingMessage.write_serializable {α : Type} (enc : α → List Nat)
    (m : OutgoingMessage) (value : α) : OutgoingMessage :=
  m.write_u8s (enc value)

structure IncomingMessage where
  data : List Nat
  cursor : Nat
deriving Repr, DecidableEq

def IncomingMessage.new (data : List Nat) : IncomingMessage := ⟨data, 0⟩

def OutgoingMessage.into_incoming (m : OutgoingMessage) : IncomingMessage :=
  IncomingMessage.new m.data

/-- Sequencing for the read combinators: Rust readers take &mut self, so a
failing composite read leaves the cursor where the failing sub-read left it. -/
def rseq {α β : Type} (r : Option α × IncomingMessage)
    (f : α → IncomingMessage → Option β × IncomingMessage) :
    Option β × IncomingMessage :=
  match r with
  | (some a, m) => f a m
  | (none, m) => (none, m)

def IncomingMessage.read_u8 (m : IncomingMessage) : Option Nat × IncomingMessage :=
  match m.data[m.cursor]? with
  | some r => (some r, ⟨m.data, m.cursor + 1⟩)
  | none => (none, m)

def IncomingMessage.read_bool (m : IncomingMessage) : Option Bool × IncomingMessage :=
  rseq m.read_u8 fun v m => (some (v != 0), m)

def IncomingMessage.read_i8 (m : IncomingMessage) : Option Int × IncomingMessage :=
  rseq m.read_u8 fun v m => (some (fromBits 8 v), m)

def IncomingMessage.read_u16 (m : IncomingMessage) : Option Nat × IncomingMessage :=
  rseq m.read_u8 fun b0 m =>
    rseq m.read_u8 fun b1 m => (some (b0 + 256 * b1), m)

def IncomingMessage.read_i16 (m : IncomingMessage) : Option Int × IncomingMessage :=
  rseq m.read_u16 fun v m => (some (fromBits 16 v), m)

def IncomingMessage.read_u32 (m : IncomingMessage) : Option Nat × IncomingMessage :=
  rseq m.read_u16 fun s0 m =>
    rseq m.read_u16 fun s1 m => (some (s0 + 65536 * s1), m)

def IncomingMessage.read_i32 (m : IncomingMessage) : Option Int × IncomingMessage :=
  rseq m.read_u32 fun v m => (some (fromBits 32 v), m)

def IncomingMessage.read_u64 (m : IncomingMessage) : Option Nat × IncomingMessage :=
  rseq m.read_u32 fun i0 m =>
    rseq m.read_u32 fun i1 m => (some (i0 + 4294967296 * i1), m)

def IncomingMessage.read_i64 (m : IncomingMessage) : Option Int × IncomingMessage :=
  rseq m.read_u64 fun v m => (some (fromBits 64 v), m)

def IncomingMessage.read_f32 (m : IncomingMessage) : Option Nat × IncomingMessage :=
  m.read_u32

def IncomingMessage.read_f64 (m : IncomingMessage) : Option Nat × IncomingMessage :=
  m.read_u64

def IncomingMessage.read_usize (m : IncomingMessage) : Option Nat × IncomingMessage :=
  m.read_u64

/-- read_isize is `read_u64()? as isize` in the source: a bit reinterpretation. -/
def IncomingMessage.read_isize (m : IncomingMessage) : Option Int × IncomingMessage :=
  rseq m.read_u64 fun v m => (some (fromBits 64 v), m)

def IncomingMessage.read_n_u8s (n : Nat) (m : IncomingMessage) :
    Option (List Nat) × IncomingMessage :=
  match n with
  | 0 => (some [], m)
  | n + 1 =>
    rseq m.read_u8 fun b m =>
      rseq (read_n_u8s n m) fun bs m => (some (b :: bs), m)

def IncomingMessage.read_at_most_n_u8s (n : Nat) (m : IncomingMessage) :
    List Nat × IncomingMessage :=
  let length := min n (m.data.length - m.cursor)
  match m.read_n_u8s length with
  | (some bs, m) => (bs, m)
  | (none, m) => ([], m)

def IncomingMessage.read_u8s (m : IncomingMessage) :
    Option (List Nat) × IncomingMessage :=
  rseq m.read_usize fun length m => m.read_n_u8s length

def IncomingMessage.read_string (m : IncomingMessage) :
    Option (List Nat) × IncomingMessage :=
  m.read_u8s

/-- read_serializable, with bincode deserialisation abstracted as dec. -/
def IncomingMessage.read_serializable {α : Type} (dec : List Nat → Option α)
    (m : IncomingMessage) : Option α × IncomingMessage :=
  rseq m.read_u8s fun bytes m => (dec bytes, m)

def IncomingMessage.read_rest (m : IncomingMessage) : List Nat :=
  m.data.drop m.cursor

def IncomingMessage.at_end (m : IncomingMessage) : Prop :=
  m.cursor = m.data.length

instance (m : IncomingMessage) : Decidable m.at_end := by
  unfold IncomingMessage.at_end; infer_instance

/-! ### Byte-level shapes of the writers -/

def u16bytes (v : Nat) : List Nat := [v % 256, v / 256 % 256]

def u32bytes (v : Nat) : List Nat := u16bytes (v % 65536) ++ u16bytes (v / 65536 % 65536)

def u64bytes (v : Nat) : List Nat :=
  u32bytes (v % 4294967296) ++ u32bytes (v / 4294967296 % 4294967296)

@[simp] theorem write_u8_data (m : OutgoingMessage) (v : Nat) :
    (m.write_u8 v).data = m.data ++ [v] := rfl

@[simp] theorem write_u16_data (m : OutgoingMessage) (v : Nat) :
    (m.write_u16 v).data = m.data ++ u16bytes v := by
  simp [OutgoingMessage.write_u16, u16bytes]

@[simp] theorem write_u32_data (m : OutgoingMessage) (v : Nat) :
    (m.write_u32 v).data = m.data ++ u32bytes v := by
  simp [OutgoingMessage.write_u32, u32bytes]

@[simp] theorem write_u64_data (m : OutgoingMessage) (v : Nat) :
    (m.write_u64 v).data = m.data ++ u64bytes v := by
  simp [OutgoingMessage.write_u64, u64bytes]

@[simp] theorem write_data_data (m : OutgoingMessage) (vs : List Nat) :
    (m.write_data vs).data = m.data ++ vs := by
  induction vs generalizing m with
  | nil => simp [OutgoingMessage.write_data]
  | cons b bs ih =>
    simp only [OutgoingMessage.write_data, List.foldl_cons] at *
    rw [ih (m.write_u8 b)]
    simp

@[simp] theorem write_u8s_data (m : OutgoingMessage) (vs : List Nat) :
    (m.write_u8s vs).data = m.data ++ u64bytes vs.length ++ vs := by
  have h : (m.write_u8s vs) = (m.write_usize vs.length).write_data vs := rfl
  rw [h, write_data_data]
  simp [OutgoingMessage.write_usize]

@[simp] theorem u16bytes_length (v : Nat) : (u16bytes v).length = 2 := rfl

@[simp] theorem u32bytes_length (v : Nat) : (u32bytes v).length = 4 := rfl

@[simp] theorem u64bytes_length (v : Nat) : (u64bytes v).length = 8 := rfl

/-! ### Positional read lemmas -/

theorem getElem?_middle (d mid suf : List Nat) (k : Nat) (hk : k < mid.length) :
    (d ++ mid ++ suf)[d.length + k]? = mid[k]? := by
  rw [List.append_assoc, List.getElem?_append_right (by omega)]
  rw [Nat.add_sub_cancel_left]
  exact List.getElem?_append_left hk

theorem read_u8_pos (L : List Nat) (c b : Nat) (h : L[c]? = some b) :
    IncomingMessage.read_u8 ⟨L, c⟩ = (some b, ⟨L, c + 1⟩) := by
  simp [IncomingMessage.read_u8, h]

theorem read_u16_pos (L : List Nat) (c x0 x1 : Nat) (h0 : L[c]? = some x0)
    (h1 : L[c + 1]? = some x1) :
    IncomingMessage.read_u16 ⟨L, c⟩ = (some (x0 + 256 * x1), ⟨L, c + 2⟩) := by
  unfold IncomingMessage.read_u16
  rw [read_u8_pos L c x0 h0]
  simp only [rseq]
  rw [read_u8_pos L (c + 1) x1 h1]

theorem read_u32_pos (L : List Nat) (c s0 s1 : Nat)
    (h0 : IncomingMessage.read_u16 ⟨L, c⟩ = (some s0, ⟨L, c + 2⟩))
    (h1 : IncomingMessage.read_u16 ⟨L, c + 2⟩ = (some s1, ⟨L, c + 4⟩)) :
    IncomingMessage.read_u32 ⟨L, c⟩ = (some (s0 + 65536 * s1), ⟨L, c + 4⟩) := by
  unfold IncomingMessage.read_u32
  rw [h0]
  simp only [rseq]
  rw [h1]

theorem read_u64_pos (L : List Nat) (c i0 i1 : Nat)
    (h0 : IncomingMessage.read_u32 ⟨L, c⟩ = (some i0, ⟨L, c + 4⟩))
    (h1 : IncomingMessage.read_u32 ⟨L, c + 4⟩ = (some i1, ⟨L, c + 8⟩)) :
    IncomingMessage.read_u64 ⟨L, c⟩ = (some (i0 + 4294967296 * i1), ⟨L, c + 8⟩) := by
  unfold IncomingMessage.read_u64
  rw [h0]
  simp only [rseq]
  rw [h1]

theorem u16bytes_eq (v : Nat) : u16bytes v = [v % 256, v / 256 % 256] := rfl

theorem u32bytes_eq (v : Nat) :
    u32bytes v = [v % 256, v / 256 % 256, v / 65536 % 256, v / 16777216 % 256] := by
  simp only [u32bytes, u16bytes, List.cons_append, List.nil_append, List.cons.injEq,
    and_true]
  omega

theorem u64bytes_eq (v : Nat) :
    u64bytes v = [v % 256, v / 256 % 256, v / 65536 % 256, v / 16777216 % 256,
      v / 4294967296 % 256, v / 1099511627776 % 256, v / 281474976710656 % 256,
      v / 72057594037927936 % 256] := by
  simp only [u64bytes, u32bytes, u16bytes, List.cons_append, List.nil_append,
    List.cons.injEq, and_true]
  omega

theorem u16bytes_get0 (v : Nat) : (u16bytes v)[0]? = some (v % 256) := rfl
theorem u16bytes_get1 (v : Nat) : (u16bytes v)[1]? = some (v / 256 % 256) := rfl

theorem read_u16_at (d suf : List Nat) (v : Nat) (h : v < 65536) :
    IncomingMessage.read_u16 ⟨d ++ u16bytes v ++ suf, d.length⟩ =
      (some v, ⟨d ++ u16bytes v ++ suf, d.length + 2⟩) := by
  have h0 : (d ++ u16bytes v ++ suf)[d.length]? = some (v % 256) := by
    simpa [u16bytes_get0] using getElem?_middle d (u16bytes v) suf 0 (by simp [u16bytes])
  have h1 : (d ++ u16bytes v ++ suf)[d.length + 1]? = some (v / 256 % 256) := by
    simpa [u16bytes_get1] using getElem?_middle d (u16bytes v) suf 1 (by simp [u16bytes])
  have := read_u16_pos _ _ (v % 256) (v / 256 % 256) h0 h1
  rwa [show v % 256 + 256 * (v / 256 % 256) = v from by omega] at this

theorem read_u32_at (d suf : List Nat) (v : Nat) (h : v < 4294967296) :
    IncomingMessage.read_u32 ⟨d ++ u32bytes v ++ suf, d.length⟩ =
      (some v, ⟨d ++ u32bytes v ++ suf, d.length + 4⟩) := by
  have g : ∀ k, k < 4 → (d ++ u32bytes v ++ suf)[d.length + k]? = (u32bytes v)[k]? :=
    fun k hk => getElem?_middle d _ suf k (by rw [show (u32bytes v).length = 4 from rfl]; exact hk)
  have h0 : (d ++ u32bytes v ++ suf)[d.length]? = some (v % 256) := by
    have t := (g 0 (by omega)).trans (show (u32bytes v)[0]? = some (v % 256) by
      rw [u32bytes_eq]; rfl)
    rwa [Nat.add_zero] at t
  have h1 : (d ++ u32bytes v ++ suf)[d.length + 1]? = some (v / 256 % 256) :=
    (g 1 (by omega)).trans (show (u32bytes v)[1]? = some (v / 256 % 256) by
      rw [u32bytes_eq]; rfl)
  have h2 : (d ++ u32bytes v ++ suf)[d.length + 2]? = some (v / 65536 % 256) :=
    (g 2 (by omega)).trans (show (u32bytes v)[2]? = some (v / 65536 % 256) by
      rw [u32bytes_eq]; rfl)
  have h3 : (d ++ u32bytes v ++ suf)[d.length + 3]? = some (v / 16777216 % 256) :=
    (g 3 (by omega)).trans (show (u32bytes v)[3]? = some (v / 16777216 % 256) by
      rw [u32bytes_eq]; rfl)
  have e0 := read_u16_pos _ d.length (v % 256) (v / 256 % 256) h0 h1
  have e1 := read_u16_pos _ (d.length + 2) (v / 65536 % 256) (v / 16777216 % 256)
    h2 (by rw [show d.length + 2 + 1 = d.length + 3 from by omega]; exact h3)
  rw [show d.length + 2 + 2 = d.length + 4 from by omega] at e1
  have := read_u32_pos _ _ _ _ e0 e1
  rwa [show v % 256 + 256 * (v / 256 % 256) +
      65536 * (v / 65536 % 256 + 256 * (v / 16777216 % 256)) = v from by omega] at this

theorem read_u64_at (d suf : List Nat) (v : Nat) (h : v < 18446744073709551616) :
    IncomingMessage.read_u64 ⟨d ++ u64bytes v ++ suf, d.length⟩ =
      (some v, ⟨d ++ u64bytes v ++ suf, d.length + 8⟩) := by
  have g : ∀ k, k < 8 → (d ++ u64bytes v ++ suf)[d.length + k]? = (u64bytes v)[k]? :=
    fun k hk => getElem?_middle d _ suf k (by rw [show (u64bytes v).length = 8 from rfl]; exact hk)
  have h0 : (d ++ u64bytes v ++ suf)[d.length]? = some (v % 256) := by
    have t := (g 0 (by omega)).trans (show (u64bytes v)[0]? = some (v % 256) by
      rw [u64bytes_eq]; rfl)
    rwa [Nat.add_zero] at t
  have h1 : (d ++ u64bytes v ++ suf)[d.length + 1]? = some (v / 256 % 256) :=
    (g 1 (by omega)).trans (show (u64bytes v)[1]? = some (v / 256 % 256) by
      rw [u64bytes_eq]; rfl)
  have h2 : (d ++ u64bytes v ++ suf)[d.length + 2]? = some (v / 65536 % 256) :=
    (g 2 (by omega)).trans (show (u64bytes v)[2]? = some (v / 65536 % 256) by
      rw [u64bytes_eq]; rfl)
  have h3 : (d ++ u64bytes v ++ suf)[d.length + 3]? = some (v / 16777216 % 256) :=
    (g 3 (by omega)).trans (show (u64bytes v)[3]? = some (v / 16777216 % 256) by
      rw [u64bytes_eq]; rfl)
  have h4 : (d ++ u64bytes v ++ suf)[d.length + 4]? = some (v / 4294967296 % 256) :=
    (g 4 (by omega)).trans (show (u64bytes v)[4]? = some (v / 4294967296 % 256) by
      rw [u64bytes_eq]; rfl)
  have h5 : (d ++ u64bytes v ++ suf)[d.length + 5]? = some (v / 1099511627776 % 256) :=
    (g 5 (by omega)).trans (show (u64bytes v)[5]? = some (v / 1099511627776 % 256) by
      rw [u64bytes_eq]; rfl)
  have h6 : (d ++ u64bytes v ++ suf)[d.length + 6]? = some (v / 281474976710656 % 256) :=
    (g 6 (by omega)).trans (show (u64bytes v)[6]? = some (v / 281474976710656 % 256) by
      rw [u64bytes_eq]; rfl)
  have h7 : (d ++ u64bytes v ++ suf)[d.length + 7]? = some (v / 72057594037927936 % 256) :=
    (g 7 (by omega)).trans (show (u64bytes v)[7]? = some (v / 72057594037927936 % 256) by
      rw [u64bytes_eq]; rfl)
  have e0 := read_u16_pos _ d.length _ _ h0 h1
  have e1 := read_u16_pos _ (d.length + 2) _ _
    h2 (by rw [show d.length + 2 + 1 = d.length + 3 from by omega]; exact h3)
  have e2 := read_u16_pos _ (d.length + 4) _ _
    h4 (by rw [show d.length + 4 + 1 = d.length + 5 from by omega]; exact h5)
  have e3 := read_u16_pos _ (d.length + 6) _ _
    h6 (by rw [show d.length + 6 + 1 = d.length + 7 from by omega]; exact h7)
  rw [show d.length + 2 + 2 = d.length + 4 from by omega] at e1
  rw [show d.length + 4 + 2 = d.length + 6 from by omega] at e2
  rw [show d.length + 6 + 2 = d.length + 8 from by omega] at e3
  have f0 := read_u32_pos _ _ _ _ e0 e1
  have f1 := read_u32_pos _ (d.length + 4) _ _
    e2 (by rw [show d.length + 4 + 2 = d.length + 6 from by omega]; exact e3)
  rw [show d.length + 4 + 4 = d.length + 8 from by omega] at f1
  have := read_u64_pos _ _ _ _ f0 f1
  rwa [show v % 256 + 256 * (v / 256 % 256) +
      65536 * (v / 65536 % 256 + 256 * (v / 16777216 % 256)) +
      4294967296 * (v / 4294967296 % 256 + 256 * (v / 1099511627776 % 256) +
        65536 * (v / 281474976710656 % 256 + 256 * (v / 72057594037927936 % 256))) = v
    from by omega] at this

theorem read_n_u8s_pos (L : List Nat) (xs : List Nat) (c : Nat)
    (h : ∀ k, k < xs.length → L[c + k]? = xs[k]?) :
    IncomingMessage.read_n_u8s xs.length ⟨L, c⟩ =
      (some xs, ⟨L, c + xs.length⟩) := by
  induction xs generalizing c with
  | nil => simp [IncomingMessage.read_n_u8s]
  | cons b bs ih =>
    show IncomingMessage.read_n_u8s (bs.length + 1) _ = _
    unfold IncomingMessage.read_n_u8s
    have h0 : L[c]? = some b := by simpa using h 0 (by simp)
    rw [read_u8_pos L c b h0]
    simp only [rseq]
    have hrec := ih (c + 1) (fun k hk => by
      have := h (k + 1) (by simp; omega)
      rw [show c + (k + 1) = c + 1 + k from by omega] at this
      simpa using this)
    rw [hrec]
    simp only [rseq]
    rw [show c + 1 + bs.length = c + (bs.length + 1) from by omega]
    rfl

theorem getElem?_suffix (d xs : List Nat) (k : Nat) (hk : k < xs.length) :
    (d ++ xs)[d.length + k]? = xs[k]? := by
  rw [List.getElem?_append_right (by omega), Nat.add_sub_cancel_left]

theorem read_n_u8s_at (d xs suf : List Nat) :
    IncomingMessage.read_n_u8s xs.length ⟨d ++ xs ++ suf, d.length⟩ =
      (some xs, ⟨d ++ xs ++ suf, d.length + xs.length⟩) :=
  read_n_u8s_pos _ _ _ (fun k hk => getElem?_middle d xs suf k hk)

theorem read_u16_full (v : Nat) (h : v < 65536) :
    IncomingMessage.read_u16 ⟨u16bytes v, 0⟩ = (some v, ⟨u16bytes v, 2⟩) := by
  simpa using read_u16_at [] [] v h

theorem read_u32_full (v : Nat) (h : v < 4294967296) :
    IncomingMessage.read_u32 ⟨u32bytes v, 0⟩ = (some v, ⟨u32bytes v, 4⟩) := by
  simpa using read_u32_at [] [] v h

theorem read_u64_full (v : Nat) (h : v < 18446744073709551616) :
    IncomingMessage.read_u64 ⟨u64bytes v, 0⟩ = (some v, ⟨u64bytes v, 8⟩) := by
  simpa using read_u64_at [] [] v h

/-! ### Two's-complement cast lemmas -/

theorem fromBits_toBits_8 (v : Int) (h1 : -128 ≤ v) (h2 : v < 128) :
    fromBits 8 (toBits 8 v) = v := by
  unfold toBits fromBits
  rw [show ((2 : Int) ^ (8 : Nat)) = 256 from by norm_num]
  rw [show (8 : Nat) - 1 = 7 from rfl, show (2 : Nat) ^ (7 : Nat) = 128 from by norm_num]
  split <;> omega

theorem fromBits_toBits_16 (v : Int) (h1 : -32768 ≤ v) (h2 : v < 32768) :
    fromBits 16 (toBits 16 v) = v := by
  unfold toBits fromBits
  rw [show ((2 : Int) ^ (16 : Nat)) = 65536 from by norm_num]
  rw [show (16 : Nat) - 1 = 15 from rfl, show (2 : Nat) ^ (15 : Nat) = 32768 from by norm_num]
  split <;> omega

theorem fromBits_toBits_32 (v : Int) (h1 : -2147483648 ≤ v) (h2 : v < 2147483648) :
    fromBits 32 (toBits 32 v) = v := by
  unfold toBits fromBits
  rw [show ((2 : Int) ^ (32 : Nat)) = 4294967296 from by norm_num]
  rw [show (32 : Nat) - 1 = 31 from rfl,
    show (2 : Nat) ^ (31 : Nat) = 2147483648 from by norm_num]
  split <;> omega

theorem fromBits_toBits_64 (v : Int) (h1 : -9223372036854775808 ≤ v)
    (h2 : v < 9223372036854775808) : fromBits 64 (toBits 64 v) = v := by
  unfold toBits fromBits
  rw [show ((2 : Int) ^ (64 : Nat)) = 18446744073709551616 from by norm_num]
  rw [show (64 : Nat) - 1 = 63 from rfl,
    show (2 : Nat) ^ (63 : Nat) = 9223372036854775808 from by norm_num]
  split <;> omega

theorem toBits_lt (w : Nat) (v : Int) : toBits w v < 2 ^ w := by
  unfold toBits
  have hpos : (0 : Int) < 2 ^ w := by positivity
  have := Int.emod_lt_of_pos v hpos
  have h2 : ((2 : Int) ^ w).toNat = 2 ^ w := by
    rw [show ((2 : Int) ^ w) = ((2 ^ w : Nat) : Int) from by push_cast; ring]
    exact Int.toNat_natCast _
  omega

/-! ### Round-trip statements (claim C8) -/

/-- Decoding what r reads from what w wrote yields x with the cursor at the
end of the buffer. -/
def roundtrips {α : Type} (w : OutgoingMessage)
    (r : IncomingMessage → Option α × IncomingMessage) (x : α) : Prop :=
  (r w.into_incoming).1 = some x ∧ (r w.into_incoming).2.at_end

theorem rt_u8 (x : Nat) : roundtrips (OutgoingMessage.new.write_u8 x)
    IncomingMessage.read_u8 x := by
  constructor <;> rfl

theorem rt_bool (b : Bool) : roundtrips (OutgoingMessage.new.write_bool b)
    IncomingMessage.read_bool b := by
  cases b <;> exact ⟨rfl, rfl⟩

theorem rt_i8 (v : Int) (h1 : -128 ≤ v) (h2 : v < 128) :
    roundtrips (OutgoingMessage.new.write_i8 v) IncomingMessage.read_i8 v := by
  have hr : IncomingMessage.read_u8 ⟨[toBits 8 v], 0⟩ =
      (some (toBits 8 v), ⟨[toBits 8 v], 1⟩) := rfl
  have : IncomingMessage.read_i8 ⟨[toBits 8 v], 0⟩ =
      (some (fromBits 8 (toBits 8 v)), ⟨[toBits 8 v], 1⟩) := by
    unfold IncomingMessage.read_i8
    rw [hr]
    rfl
  constructor
  · show (IncomingMessage.read_i8 ⟨[toBits 8 v], 0⟩).1 = some v
    rw [this, fromBits_toBits_8 v h1 h2]
  · show (IncomingMessage.read_i8 ⟨[toBits 8 v], 0⟩).2.at_end
    rw [this]
    rfl

theorem rt_u16 (v : Nat) (h : v < 65536) :
    roundtrips (OutgoingMessage.new.write_u16 v) IncomingMessage.read_u16 v := by
  have e : IncomingMessage.read_u16 ⟨u16bytes v, 0⟩ = (some v, ⟨u16bytes v, 2⟩) :=
    read_u16_full v h
  exact ⟨by rw [show (OutgoingMessage.new.write_u16 v).into_incoming =
      (⟨u16bytes v, 0⟩ : IncomingMessage) from rfl, e],
    by rw [show (OutgoingMessage.new.write_u16 v).into_incoming =
      (⟨u16bytes v, 0⟩ : IncomingMessage) from rfl, e]; rfl⟩

theorem rt_u32 (v : Nat) (h : v < 4294967296) :
    roundtrips (OutgoingMessage.new.write_u32 v) IncomingMessage.read_u32 v := by
  have e : IncomingMessage.read_u32 ⟨u32bytes v, 0⟩ = (some v, ⟨u32bytes v, 4⟩) :=
    read_u32_full v h
  exact ⟨by rw [show (OutgoingMessage.new.write_u32 v).into_incoming =
      (⟨u32bytes v, 0⟩ : IncomingMessage) from rfl, e],
    by rw [show (OutgoingMessage.new.write_u32 v).into_incoming =
      (⟨u32bytes v, 0⟩ : IncomingMessage) from rfl, e]; rfl⟩

theorem rt_u64 (v : Nat) (h : v < 18446744073709551616) :
    roundtrips (OutgoingMessage.new.write_u64 v) IncomingMessage.read_u64 v := by
  have e : IncomingMessage.read_u64 ⟨u64bytes v, 0⟩ = (some v, ⟨u64bytes v, 8⟩) :=
    read_u64_full v h
  exact ⟨by rw [show (OutgoingMessage.new.write_u64 v).into_incoming =
      (⟨u64bytes v, 0⟩ : IncomingMessage) from rfl, e],
    by rw [show (OutgoingMessage.new.write_u64 v).into_incoming =
      (⟨u64bytes v, 0⟩ : IncomingMessage) from rfl, e]; rfl⟩

theorem rt_i16 (v : Int) (h1 : -32768 ≤ v) (h2 : v < 32768) :
    roundtrips (OutgoingMessage.new.write_i16 v) IncomingMessage.read_i16 v := by
  have hlt : toBits 16 v < 65536 := by
    have := toBits_lt 16 v
    norm_num at this
    exact this
  have e : IncomingMessage.read_i16 ⟨u16bytes (toBits 16 v), 0⟩ =
      (some (fromBits 16 (toBits 16 v)), ⟨u16bytes (toBits 16 v), 2⟩) := by
    unfold IncomingMessage.read_i16
    rw [read_u16_full _ hlt]
    rfl
  rw [fromBits_toBits_16 v h1 h2] at e
  exact ⟨by rw [show (OutgoingMessage.new.write_i16 v).into_incoming =
      (⟨u16bytes (toBits 16 v), 0⟩ : IncomingMessage) from rfl, e],
    by rw [show (OutgoingMessage.new.write_i16 v).into_incoming =
      (⟨u16bytes (toBits 16 v), 0⟩ : IncomingMessage) from rfl, e]; rfl⟩

theorem rt_i32 (v : Int) (h1 : -2147483648 ≤ v) (h2 : v < 2147483648) :
    roundtrips (OutgoingMessage.new.write_i32 v) IncomingMessage.read_i32 v := by
  have hlt : toBits 32 v < 4294967296 := by
    have := toBits_lt 32 v
    norm_num at this
    exact this
  have e : IncomingMessage.read_i32 ⟨u32bytes (toBits 32 v), 0⟩ =
      (some (fromBits 32 (toBits 32 v)), ⟨u32bytes (toBits 32 v), 4⟩) := by
    unfold IncomingMessage.read_i32
    rw [read_u32_full _ hlt]
    rfl
  rw [fromBits_toBits_32 v h1 h2] at e
  exact ⟨by rw [show (OutgoingMessage.new.write_i32 v).into_incoming =
      (⟨u32bytes (toBits 32 v), 0⟩ : IncomingMessage) from rfl, e],
    by rw [show (OutgoingMessage.new.write_i32 v).into_incoming =
      (⟨u32bytes (toBits 32 v), 0⟩ : IncomingMessage) from rfl, e]; rfl⟩

theorem rt_i64 (v : Int) (h1 : -9223372036854775808 ≤ v)
    (h2 : v < 9223372036854775808) :
    roundtrips (OutgoingMessage.new.write_i64 v) IncomingMessage.read_i64 v := by
  have hlt : toBits 64 v < 18446744073709551616 := by
    have := toBits_lt 64 v
    norm_num at this
    exact this
  have e : IncomingMessage.read_i64 ⟨u64bytes (toBits 64 v), 0⟩ =
      (some (fromBits 64 (toBits 64 v)), ⟨u64bytes (toBits 64 v), 8⟩) := by
    unfold IncomingMessage.read_i64
    rw [read_u64_full _ hlt]
    rfl
  rw [fromBits_toBits_64 v h1 h2] at e
  exact ⟨by rw [show (OutgoingMessage.new.write_i64 v).into_incoming =
      (⟨u64bytes (toBits 64 v), 0⟩ : IncomingMessage) from rfl, e],
    by rw [show (OutgoingMessage.new.write_i64 v).into_incoming =
      (⟨u64bytes (toBits 64 v), 0⟩ : IncomingMessage) from rfl, e]; rfl⟩

theorem rt_usize (v : Nat) (h : v < 18446744073709551616) :
    roundtrips (OutgoingMessage.new.write_usize v) IncomingMessage.read_usize v :=
  rt_u64 v h

theorem rt_isize (v : Int) (h1 : -9223372036854775808 ≤ v)
    (h2 : v < 9223372036854775808) :
    roundtrips (OutgoingMessage.new.write_isize v) IncomingMessage.read_isize v :=
  rt_i64 v h1 h2

theorem rt_f32 (bits : Nat) (h : bits < 4294967296) :
    roundtrips (OutgoingMessage.new.write_f32 bits) IncomingMessage.read_f32 bits :=
  rt_u32 bits h

theorem rt_f64 (bits : Nat) (h : bits < 18446744073709551616) :
    roundtrips (OutgoingMessage.new.write_f64 bits) IncomingMessage.read_f64 bits :=
  rt_u64 bits h

theorem read_u8s_full (xs : List Nat) (h : xs.length < 18446744073709551616) :
    IncomingMessage.read_u8s ⟨u64bytes xs.length ++ xs, 0⟩ =
      (some xs, ⟨u64bytes xs.length ++ xs, 8 + xs.length⟩) := by
  have e1 : IncomingMessage.read_u64 ⟨u64bytes xs.length ++ xs, 0⟩ =
      (some xs.length, ⟨u64bytes xs.length ++ xs, 8⟩) := by
    simpa using read_u64_at [] xs xs.length h
  have e2 : IncomingMessage.read_n_u8s xs.length ⟨u64bytes xs.length ++ xs, 8⟩ =
      (some xs, ⟨u64bytes xs.length ++ xs, 8 + xs.length⟩) :=
    read_n_u8s_pos _ _ 8 (fun k hk => by
      simpa using getElem?_suffix (u64bytes xs.length) xs k hk)
  unfold IncomingMessage.read_u8s IncomingMessage.read_usize
  rw [e1]
  simpa [rseq] using e2

theorem write_u8s_into (xs : List Nat) :
    (OutgoingMessage.new.write_u8s xs).into_incoming =
      (⟨u64bytes xs.length ++ xs, 0⟩ : IncomingMessage) := by
  unfold OutgoingMessage.into_incoming IncomingMessage.new
  rw [write_u8s_data]
  simp [OutgoingMessage.new]

theorem rt_u8s (xs : List Nat) (h : xs.length < 18446744073709551616) :
    roundtrips (OutgoingMessage.new.write_u8s xs) IncomingMessage.read_u8s xs := by
  constructor
  · rw [write_u8s_into, read_u8s_full xs h]
  · rw [write_u8s_into, read_u8s_full xs h]
    show 8 + xs.length = (u64bytes xs.length ++ xs).length
    simp

theorem rt_string (xs : List Nat) (h : xs.length < 18446744073709551616) :
    roundtrips (OutgoingMessage.new.write_string xs) IncomingMessage.read_string xs :=
  rt_u8s xs h

theorem rt_serializable {α : Type} (enc : α → List Nat) (dec : List Nat → Option α)
    (v : α) (hdec : dec (enc v) = some v)
    (h : (enc v).length < 18446744073709551616) :
    roundtrips (OutgoingMessage.new.write_serializable enc v)
      (IncomingMessage.read_serializable dec) v := by
  have hin : (OutgoingMessage.new.write_serializable enc v).into_incoming =
      (⟨u64bytes (enc v).length ++ enc v, 0⟩ : IncomingMessage) := write_u8s_into (enc v)
  have e : IncomingMessage.read_serializable dec
      ⟨u64bytes (enc v).length ++ enc v, 0⟩ =
      (some v, ⟨u64bytes (enc v).length ++ enc v, 8 + (enc v).length⟩) := by
    unfold IncomingMessage.read_serializable
    rw [read_u8s_full _ h]
    simp [rseq, hdec]
  constructor
  · rw [hin, e]
  · rw [hin, e]
    show 8 + (enc v).length = (u64bytes (enc v).length ++ enc v).length
    simp

/-- Claim C8: for every primitive value (u8/i8 through u64/i64, usize/isize,
bool, f32, f64, length-prefixed byte arrays, UTF-8 strings) and every
serialisable value, decoding what was encoded returns the original value with
the cursor at the end of the buffer. Floats are represented by their IEEE-754
bit patterns (the codec transmutes bits), strings by their UTF-8 bytes, and
the external bincode codec by an enc/dec pair satisfying its round-trip
contract. -/
theorem C8_codec_roundtrip (x8 : Nat) (b : Bool)
    (xi8 : Int) (hi8a : -128 ≤ xi8) (hi8b : xi8 < 128)
    (x16 : Nat) (h16 : x16 < 65536)
    (xi16 : Int) (hi16a : -32768 ≤ xi16) (hi16b : xi16 < 32768)
    (x32 : Nat) (h32 : x32 < 4294967296)
    (xi32 : Int) (hi32a : -2147483648 ≤ xi32) (hi32b : xi32 < 2147483648)
    (x64 : Nat) (h64 : x64 < 18446744073709551616)
    (xi64 : Int) (hi64a : -9223372036854775808 ≤ xi64)
    (hi64b : xi64 < 9223372036854775808)
    (xus : Nat) (hus : xus < 18446744073709551616)
    (xis : Int) (hisa : -9223372036854775808 ≤ xis)
    (hisb : xis < 9223372036854775808)
    (f32bits : Nat) (hf32 : f32bits < 4294967296)
    (f64bits : Nat) (hf64 : f64bits < 18446744073709551616)
    (bytes : List Nat) (hbytes : bytes.length < 18446744073709551616)
    (str : List Nat) (hstr : str.length < 18446744073709551616)
    {α : Type} (enc : α → List Nat) (dec : List Nat → Option α) (v : α)
    (hdec : dec (enc v) = some v) (henc : (enc v).length < 18446744073709551616) :
    roundtrips (OutgoingMessage.new.write_u8 x8) IncomingMessage.read_u8 x8 ∧
    roundtrips (OutgoingMessage.new.write_bool b) IncomingMessage.read_bool b ∧
    roundtrips (OutgoingMessage.new.write_i8 xi8) IncomingMessage.read_i8 xi8 ∧
    roundtrips (OutgoingMessage.new.write_u16 x16) IncomingMessage.read_u16 x16 ∧
    roundtrips (OutgoingMessage.new.write_i16 xi16) IncomingMessage.read_i16 xi16 ∧
    roundtrips (OutgoingMessage.new.write_u32 x32) IncomingMessage.read_u32 x32 ∧
    roundtrips (OutgoingMessage.new.write_i32 xi32) IncomingMessage.read_i32 xi32 ∧
    roundtrips (OutgoingMessage.new.write_u64 x64) IncomingMessage.read_u64 x64 ∧
    roundtrips (OutgoingMessage.new.write_i64 xi64) IncomingMessage.read_i64 xi64 ∧
    roundtrips (OutgoingMessage.new.write_usize xus) IncomingMessage.read_usize xus ∧
    roundtrips (OutgoingMessage.new.write_isize xis) IncomingMessage.read_isize xis ∧
    roundtrips (OutgoingMessage.new.write_f32 f32bits) IncomingMessage.read_f32 f32bits ∧
    roundtrips (OutgoingMessage.new.write_f64 f64bits) IncomingMessage.read_f64 f64bits ∧
    roundtrips (OutgoingMessage.new.write_u8s bytes) IncomingMessage.read_u8s bytes ∧
    roundtrips (OutgoingMessage.new.write_string str) IncomingMessage.read_string str ∧
    roundtrips (OutgoingMessage.new.write_serializable enc v)
      (IncomingMessage.read_serializable dec) v :=
  ⟨rt_u8 x8, rt_bool b, rt_i8 xi8 hi8a hi8b, rt_u16 x16 h16,
    rt_i16 xi16 hi16a hi16b, rt_u32 x32 h32, rt_i32 xi32 hi32a hi32b,
    rt_u64 x64 h64, rt_i64 xi64 hi64a hi64b, rt_usize xus hus,
    rt_isize xis hisa hisb, rt_f32 f32bits hf32, rt_f64 f64bits hf64,
    rt_u8s bytes hbytes, rt_string str hstr,
    rt_serializable enc dec v hdec henc⟩

/-- Witness for C8 at concrete inputs. -/
theorem C8_codec_roundtrip_witness :
    roundtrips (OutgoingMessage.new.write_u8 7) IncomingMessage.read_u8 7 ∧
    roundtrips (OutgoingMessage.new.write_bool true) IncomingMessage.read_bool true ∧
    roundtrips (OutgoingMessage.new.write_i8 (-4)) IncomingMessage.read_i8 (-4) ∧
    roundtrips (OutgoingMessage.new.write_u16 1010) IncomingMessage.read_u16 1010 ∧
    roundtrips (OutgoingMessage.new.write_i16 (-1010)) IncomingMessage.read_i16 (-1010) ∧
    roundtrips (OutgoingMessage.new.write_u32 101010) IncomingMessage.read_u32 101010 ∧
    roundtrips (OutgoingMessage.new.write_i32 (-101010)) IncomingMessage.read_i32 (-101010) ∧
    roundtrips (OutgoingMessage.new.write_u64 10101010101) IncomingMessage.read_u64 10101010101 ∧
    roundtrips (OutgoingMessage.new.write_i64 (-10101010101))
      IncomingMessage.read_i64 (-10101010101) ∧
    roundtrips (OutgoingMessage.new.write_usize 10101010101)
      IncomingMessage.read_usize 10101010101 ∧
    roundtrips (OutgoingMessage.new.write_isize (-10101010101))
      IncomingMessage.read_isize (-10101010101) ∧
    roundtrips (OutgoingMessage.new.write_f32 1078530011) IncomingMessage.read_f32 1078530011 ∧
    roundtrips (OutgoingMessage.new.write_f64 4614256656552045848)
      IncomingMessage.read_f64 4614256656552045848 ∧
    roundtrips (OutgoingMessage.new.write_u8s [3, 1, 4, 1, 5])
      IncomingMessage.read_u8s [3, 1, 4, 1, 5] ∧
    roundtrips (OutgoingMessage.new.write_string [72, 105])
      IncomingMessage.read_string [72, 105] ∧
    roundtrips (OutgoingMessage.new.write_serializable (fun n : Nat => [n]) 42)
      (IncomingMessage.read_serializable (fun l => l.head?)) 42 :=
  C8_codec_roundtrip 7 true (-4) (by norm_num) (by norm_num) 1010 (by norm_num)
    (-1010) (by norm_num) (by norm_num) 101010 (by norm_num) (-101010) (by norm_num)
    (by norm_num) 10101010101 (by norm_num) (-10101010101) (by norm_num) (by norm_num)
    10101010101 (by norm_num) (-10101010101) (by norm_num) (by norm_num)
    1078530011 (by norm_num) 4614256656552045848 (by norm_num) [3, 1, 4, 1, 5]
    (by norm_num) [72, 105] (by norm_num) (fun n : Nat => [n]) (fun l => l.head?) 42
    rfl (by norm_num)

/-! ### Decoder totality and cursor bounds (claim C9) -/

/-- The reachable-state invariant of an IncomingMessage: the cursor never
sits past the end of the data (IncomingMessage.new starts at 0 and every
read advances only over bytes that exist). -/
def IncomingMessage.wf (m : IncomingMessage) : Prop :=
  m.cursor ≤ m.data.length

/-- After a read from m, the data is unchanged and the cursor still sits
inside the buffer. -/
def stays (m m2 : IncomingMessage) : Prop :=
  m2.data = m.data ∧ m2.cursor ≤ m2.data.length

theorem stays_rfl (m : IncomingMessage) (h : m.wf) : stays m m := ⟨rfl, h⟩

theorem stays_trans {m m2 m3 : IncomingMessage} (h1 : stays m m2)
    (h2 : stays m2 m3) : stays m m3 :=
  ⟨h2.1.trans h1.1, h2.2⟩

theorem stays_wf {m m2 : IncomingMessage} (h : stays m m2) : m2.wf := h.2

theorem rseq_stays {α β : Type} (m : IncomingMessage)
    (r : Option α × IncomingMessage)
    (f : α → IncomingMessage → Option β × IncomingMessage)
    (hr : stays m r.2)
    (hf : ∀ a m2, stays m m2 → stays m (f a m2).2) :
    stays m (rseq r f).2 := by
  rcases r with ⟨o, mm⟩
  cases o with
  | none => exact hr
  | some a => exact hf a mm hr

theorem read_u8_stays (m : IncomingMessage) (h : m.wf) : stays m m.read_u8.2 := by
  unfold IncomingMessage.read_u8
  cases h2 : m.data[m.cursor]? with
  | none => exact ⟨rfl, h⟩
  | some r =>
    refine ⟨rfl, ?_⟩
    have hlt : m.cursor < m.data.length := by
      by_contra hn
      rw [List.getElem?_eq_none (by omega)] at h2
      exact absurd h2 (by simp)
    simpa using hlt

theorem read_bool_stays (m : IncomingMessage) (h : m.wf) : stays m m.read_bool.2 :=
  rseq_stays m _ _ (read_u8_stays m h) (fun _ _ hs => hs)

theorem read_i8_stays (m : IncomingMessage) (h : m.wf) : stays m m.read_i8.2 :=
  rseq_stays m _ _ (read_u8_stays m h) (fun _ _ hs => hs)

theorem read_u16_stays (m : IncomingMessage) (h : m.wf) : stays m m.read_u16.2 :=
  rseq_stays m _ _ (read_u8_stays m h) (fun _ m2 hs =>
    rseq_stays m _ _ (stays_trans hs (read_u8_stays m2 (stays_wf hs)))
      (fun _ _ hs2 => hs2))

theorem read_i16_stays (m : IncomingMessage) (h : m.wf) : stays m m.read_i16.2 :=
  rseq_stays m _ _ (read_u16_stays m h) (fun _ _ hs => hs)

theorem read_u32_stays (m : IncomingMessage) (h : m.wf) : stays m m.read_u32.2 :=
  rseq_stays m _ _ (read_u16_stays m h) (fun _ m2 hs =>
    rseq_stays m _ _ (stays_trans hs (read_u16_stays m2 (stays_wf hs)))
      (fun _ _ hs2 => hs2))

theorem read_i32_stays (m : IncomingMessage) (h : m.wf) : stays m m.read_i32.2 :=
  rseq_stays m _ _ (read_u32_stays m h) (fun _ _ hs => hs)

theorem read_u64_stays (m : IncomingMessage) (h : m.wf) : stays m m.read_u64.2 :=
  rseq_stays m _ _ (read_u32_stays m h) (fun _ m2 hs =>
    rseq_stays m _ _ (stays_trans hs (read_u32_stays m2 (stays_wf hs)))
      (fun _ _ hs2 => hs2))

theorem read_i64_stays (m : IncomingMessage) (h : m.wf) : stays m m.read_i64.2 :=
  rseq_stays m _ _ (read_u64_stays m h) (fun _ _ hs => hs)

theorem read_f32_stays (m : IncomingMessage) (h : m.wf) : stays m m.read_f32.2 :=
  read_u32_stays m h

theorem read_f64_stays (m : IncomingMessage) (h : m.wf) : stays m m.read_f64.2 :=
  read_u64_stays m h

theorem read_usize_stays (m : IncomingMessage) (h : m.wf) : stays m m.read_usize.2 :=
  read_u64_stays m h

theorem read_isize_stays (m : IncomingMessage) (h : m.wf) : stays m m.read_isize.2 :=
  rseq_stays m _ _ (read_u64_stays m h) (fun _ _ hs => hs)

theorem read_n_u8s_stays (n : Nat) (m : IncomingMessage) (h : m.wf) :
    stays m (IncomingMessage.read_n_u8s n m).2 := by
  induction n generalizing m with
  | zero => exact ⟨rfl, h⟩
  | succ k ih =>
    unfold IncomingMessage.read_n_u8s
    exact rseq_stays m _ _ (read_u8_stays m h) (fun b m2 hs =>
      rseq_stays m _ _ (stays_trans hs (ih m2 (stays_wf hs)))
        (fun bs m3 hs3 => hs3))

theorem read_at_most_n_u8s_stays (n : Nat) (m : IncomingMessage) (h : m.wf) :
    stays m (IncomingMessage.read_at_most_n_u8s n m).2 := by
  unfold IncomingMessage.read_at_most_n_u8s
  have hs := read_n_u8s_stays (min n (m.data.length - m.cursor)) m h
  rcases e : IncomingMessage.read_n_u8s (min n (m.data.length - m.cursor)) m with ⟨o, mm⟩
  rw [e] at hs
  show stays m (match IncomingMessage.read_n_u8s (min n (m.data.length - m.cursor)) m with
    | (some bs, m) => (bs, m)
    | (none, m) => ([], m)).2
  rw [e]
  cases o with
  | none => exact hs
  | some bs => exact hs

theorem read_u8s_stays (m : IncomingMessage) (h : m.wf) : stays m m.read_u8s.2 :=
  rseq_stays m _ _ (read_usize_stays m h) (fun len m2 hs =>
    stays_trans hs (read_n_u8s_stays len m2 (stays_wf hs)))

theorem read_string_stays (m : IncomingMessage) (h : m.wf) : stays m m.read_string.2 :=
  read_u8s_stays m h

theorem read_serializable_stays {α : Type} (dec : List Nat → Option α)
    (m : IncomingMessage) (h : m.wf) : stays m (m.read_serializable dec).2 :=
  rseq_stays m _ _ (read_u8s_stays m h) (fun _ _ hs => hs)

theorem read_u8_none_iff (m : IncomingMessage) :
    m.read_u8.1 = none ↔ m.data.length ≤ m.cursor := by
  unfold IncomingMessage.read_u8
  cases h2 : m.data[m.cursor]? with
  | none =>
    exact ⟨fun _ => List.getElem?_eq_none_iff.mp h2, fun _ => rfl⟩
  | some r =>
    constructor
    · intro hc
      exact Option.noConfusion hc
    · intro hle
      rw [List.getElem?_eq_none_iff.mpr hle] at h2
      exact Option.noConfusion h2

theorem read_n_u8s_none_iff (n : Nat) (m : IncomingMessage) (h : m.wf) :
    (IncomingMessage.read_n_u8s n m).1 = none ↔ m.data.length < m.cursor + n := by
  induction n generalizing m with
  | zero =>
    have hw : m.cursor ≤ m.data.length := h
    constructor
    · intro hc
      exact absurd hc (by simp [IncomingMessage.read_n_u8s])
    · intro hlt
      exact absurd hlt (by omega)
  | succ k ih =>
    unfold IncomingMessage.read_n_u8s
    have h8 := read_u8_stays m h
    have hn8 := read_u8_none_iff m
    rcases e : m.read_u8 with ⟨o, mm⟩
    rw [e] at h8 hn8
    cases o with
    | none =>
      have hle : m.data.length ≤ m.cursor := hn8.mp rfl
      exact ⟨fun _ => by omega, fun _ => rfl⟩
    | some b =>
      have hcur : mm.cursor = m.cursor + 1 ∧ mm.data = m.data := by
        unfold IncomingMessage.read_u8 at e
        cases h2 : m.data[m.cursor]? with
        | none =>
          rw [h2] at e
          exact absurd (congrArg Prod.fst e) (by simp)
        | some r =>
          rw [h2] at e
          simp only [Prod.mk.injEq] at e
          rw [← e.2]
          exact ⟨rfl, rfl⟩
      have hrec := ih mm (stays_wf h8)
      show (rseq (IncomingMessage.read_n_u8s k mm) fun bs m =>
        (some (b :: bs), m)).1 = none ↔ m.data.length < m.cursor + (k + 1)
      rcases e2 : IncomingMessage.read_n_u8s k mm with ⟨o2, mm2⟩
      rw [e2] at hrec
      cases o2 with
      | some bs =>
        constructor
        · intro hc
          exact Option.noConfusion hc
        · intro hlt
          have hx : mm.data.length < mm.cursor + k := by
            rw [hcur.1, hcur.2]
            omega
          exact absurd (hrec.mpr hx) (by simp)
      | none =>
        have hx : mm.data.length < mm.cursor + k := hrec.mp rfl
        rw [hcur.1, hcur.2] at hx
        exact ⟨fun _ => by omega, fun _ => rfl⟩

theorem read_n_u8s_spec (n : Nat) (m : IncomingMessage)
    (h : m.cursor + n ≤ m.data.length) :
    IncomingMessage.read_n_u8s n m =
      (some ((m.data.drop m.cursor).take n), ⟨m.data, m.cursor + n⟩) := by
  have hlen : ((m.data.drop m.cursor).take n).length = n := by
    rw [List.length_take, List.length_drop]
    omega
  have hget : ∀ k, k < ((m.data.drop m.cursor).take n).length →
      m.data[m.cursor + k]? = ((m.data.drop m.cursor).take n)[k]? := by
    intro k hk
    rw [hlen] at hk
    rw [List.getElem?_take_of_lt hk, List.getElem?_drop]
  have := read_n_u8s_pos m.data ((m.data.drop m.cursor).take n) m.cursor hget
  rw [hlen] at this
  rw [show (⟨m.data, m.cursor⟩ : IncomingMessage) = m from rfl] at this
  exact this

theorem read_at_most_n_u8s_spec (n : Nat) (m : IncomingMessage) (h : m.wf) :
    IncomingMessage.read_at_most_n_u8s n m =
      ((m.data.drop m.cursor).take n,
        ⟨m.data, m.cursor + min n (m.data.length - m.cursor)⟩) := by
  have hw : m.cursor ≤ m.data.length := h
  unfold IncomingMessage.read_at_most_n_u8s
  have hle : m.cursor + min n (m.data.length - m.cursor) ≤ m.data.length := by omega
  simp only [read_n_u8s_spec _ m hle]
  rcases Nat.le_total n (m.data.length - m.cursor) with hc | hc
  · rw [Nat.min_eq_left hc]
  · rw [Nat.min_eq_right hc]
    have h1 : (m.data.drop m.cursor).take (m.data.length - m.cursor) =
        m.data.drop m.cursor :=
      List.take_of_length_le (by rw [List.length_drop])
    have h2 : (m.data.drop m.cursor).take n = m.data.drop m.cursor :=
      List.take_of_length_le (by rw [List.length_drop]; omega)
    rw [h1, h2]

theorem read_rest_spec (m : IncomingMessage) :
    m.read_rest = m.data.drop m.cursor := rfl

/-- Claim C9: every decoder is total. For every reachable message state
(data plus a cursor inside the buffer), each read operation returns its
updated state with the cursor still inside the buffer and the data intact
(never past the end), fixed-width reads return an absent value exactly on
truncated input, and read_at_most_n_u8s / read_rest return the available
bytes. In the embedding there is no abort path: every operation is a total
function. -/
theorem C9_decoder_totality (m : IncomingMessage) (h : m.wf) (n : Nat)
    {α : Type} (dec : List Nat → Option α) :
    stays m m.read_u8.2 ∧ stays m m.read_bool.2 ∧ stays m m.read_i8.2 ∧
    stays m m.read_u16.2 ∧ stays m m.read_i16.2 ∧ stays m m.read_u32.2 ∧
    stays m m.read_i32.2 ∧ stays m m.read_u64.2 ∧ stays m m.read_i64.2 ∧
    stays m m.read_f32.2 ∧ stays m m.read_f64.2 ∧ stays m m.read_usize.2 ∧
    stays m m.read_isize.2 ∧ stays m (IncomingMessage.read_n_u8s n m).2 ∧
    stays m (IncomingMessage.read_at_most_n_u8s n m).2 ∧
    stays m m.read_u8s.2 ∧ stays m m.read_string.2 ∧
    stays m (m.read_serializable dec).2 ∧
    (m.read_u8.1 = none ↔ m.data.length ≤ m.cursor) ∧
    ((IncomingMessage.read_n_u8s n m).1 = none ↔ m.data.length < m.cursor + n) ∧
    (IncomingMessage.read_at_most_n_u8s n m).1 = (m.data.drop m.cursor).take n ∧
    m.read_rest = m.data.drop m.cursor :=
  ⟨read_u8_stays m h, read_bool_stays m h, read_i8_stays m h,
    read_u16_stays m h, read_i16_stays m h, read_u32_stays m h,
    read_i32_stays m h, read_u64_stays m h, read_i64_stays m h,
    read_f32_stays m h, read_f64_stays m h, read_usize_stays m h,
    read_isize_stays m h, read_n_u8s_stays n m h,
    read_at_most_n_u8s_stays n m h, read_u8s_stays m h, read_string_stays m h,
    read_serializable_stays dec m h, read_u8_none_iff m,
    read_n_u8s_none_iff n m h,
    by rw [read_at_most_n_u8s_spec n m h], read_rest_spec m⟩

/-- Witness for C9 at a concrete message state. -/
theorem C9_decoder_totality_witness :
    stays ⟨[3, 1, 4], 1⟩ (⟨[3, 1, 4], 1⟩ : IncomingMessage).read_u8.2 ∧
    stays ⟨[3, 1, 4], 1⟩ (⟨[3, 1, 4], 1⟩ : IncomingMessage).read_bool.2 ∧
    stays ⟨[3, 1, 4], 1⟩ (⟨[3, 1, 4], 1⟩ : IncomingMessage).read_i8.2 ∧
    stays ⟨[3, 1, 4], 1⟩ (⟨[3, 1, 4], 1⟩ : IncomingMessage).read_u16.2 ∧
    stays ⟨[3, 1, 4], 1⟩ (⟨[3, 1, 4], 1⟩ : IncomingMessage).read_i16.2 ∧
    stays ⟨[3, 1, 4], 1⟩ (⟨[3, 1, 4], 1⟩ : IncomingMessage).read_u32.2 ∧
    stays ⟨[3, 1, 4], 1⟩ (⟨[3, 1, 4], 1⟩ : IncomingMessage).read_i32.2 ∧
    stays ⟨[3, 1, 4], 1⟩ (⟨[3, 1, 4], 1⟩ : IncomingMessage).read_u64.2 ∧
    stays ⟨[3, 1, 4], 1⟩ (⟨[3, 1, 4], 1⟩ : IncomingMessage).read_i64.2 ∧
    stays ⟨[3, 1, 4], 1⟩ (⟨[3, 1, 4], 1⟩ : IncomingMessage).read_f32.2 ∧
    stays ⟨[3, 1, 4], 1⟩ (⟨[3, 1, 4], 1⟩ : IncomingMessage).read_f64.2 ∧
    stays ⟨[3, 1, 4], 1⟩ (⟨[3, 1, 4], 1⟩ : IncomingMessage).read_usize.2 ∧
    stays ⟨[3, 1, 4], 1⟩ (⟨[3, 1, 4], 1⟩ : IncomingMessage).read_isize.2 ∧
    stays ⟨[3, 1, 4], 1⟩ (IncomingMessage.read_n_u8s 2 ⟨[3, 1, 4], 1⟩).2 ∧
    stays ⟨[3, 1, 4], 1⟩ (IncomingMessage.read_at_most_n_u8s 2 ⟨[3, 1, 4], 1⟩).2 ∧
    stays ⟨[3, 1, 4], 1⟩ (⟨[3, 1, 4], 1⟩ : IncomingMessage).read_u8s.2 ∧
    stays ⟨[3, 1, 4], 1⟩ (⟨[3, 1, 4], 1⟩ : IncomingMessage).read_string.2 ∧
    stays ⟨[3, 1, 4], 1⟩
      ((⟨[3, 1, 4], 1⟩ : IncomingMessage).read_serializable (fun l => l.head?)).2 ∧
    ((⟨[3, 1, 4], 1⟩ : IncomingMessage).read_u8.1 = none ↔
      ([3, 1, 4] : List Nat).length ≤ 1) ∧
    ((IncomingMessage.read_n_u8s 2 ⟨[3, 1, 4], 1⟩).1 = none ↔
      ([3, 1, 4] : List Nat).length < 1 + 2) ∧
    (IncomingMessage.read_at_most_n_u8s 2 ⟨[3, 1, 4], 1⟩).1 =
      (([3, 1, 4] : List Nat).drop 1).take 2 ∧
    (⟨[3, 1, 4], 1⟩ : IncomingMessage).read_rest = ([3, 1, 4] : List Nat).drop 1 :=
  C9_decoder_totality ⟨[3, 1, 4], 1⟩ (by unfold IncomingMessage.wf; simp) 2
    (fun l => l.head?)

/-!
## Reliable socket (src/udp_ext/src/reliable.rs)

State is the receive-relevant part of ReliableSocket: the packet id counter,
the unacked map and the seen_acks map. The UDP socket itself, the background
receive thread and the time-driven retransmission (UnackedMessage.last_sent,
send_if_needed) are real-time effects outside the embedding; retransmission
emits no PacketRecieved event, so the dedup claims are unaffected.
HashMaps become association lists; the BTreeSet of packet ids becomes a
sorted duplicate-free list whose head is the least element (pop_first).
-/

abbrev SocketAddr := Nat

def lookupA {κ β : Type} [DecidableEq κ] (l : List (κ × β)) (k : κ) : Option β :=
  match l with
  | [] => none
  | (k2, v) :: rest => if k2 = k then some v else lookupA rest k

def insertA {κ β : Type} [DecidableEq κ] (l : List (κ × β)) (k : κ) (v : β) :
    List (κ × β) :=
  match l with
  | [] => [(k, v)]
  | (k2, v2) :: rest => if k2 = k then (k, v) :: rest else (k2, v2) :: insertA rest k v

def removeA {κ β : Type} [DecidableEq κ] (l : List (κ × β)) (k : κ) : List (κ × β) :=
  l.filter (fun p => p.1 != k)

def containsA {κ β : Type} [DecidableEq κ] (l : List (κ × β)) (k : κ) : Bool :=
  (lookupA l k).isSome

@[simp] theorem lookupA_insertA_self {κ β : Type} [DecidableEq κ]
    (l : List (κ × β)) (k : κ) (v : β) :
    lookupA (insertA l k v) k = some v := by
  induction l with
  | nil => simp [insertA, lookupA]
  | cons p rest ih =>
    rcases p with ⟨k2, v2⟩
    by_cases h : k2 = k
    · simp [insertA, h, lookupA]
    · simp [insertA, h, lookupA, ih]

theorem lookupA_insertA_other {κ β : Type} [DecidableEq κ]
    (l : List (κ × β)) (k k2 : κ) (v : β)
    (h : k2 ≠ k) : lookupA (insertA l k v) k2 = lookupA l k2 := by
  induction l with
  | nil =>
    simp only [insertA, lookupA]
    rw [if_neg (Ne.symm h)]
  | cons p rest ih =>
    rcases p with ⟨k3, v3⟩
    by_cases h3 : k3 = k <;> by_cases h5 : k3 = k2 <;>
      simp_all [insertA, lookupA]

theorem lookupA_removeA {κ β : Type} [DecidableEq κ] (l : List (κ × β)) (k k2 : κ) :
    lookupA (removeA l k) k2 = if k2 = k then none else lookupA l k2 := by
  induction l with
  | nil => simp [removeA, lookupA]
  | cons p rest ih =>
    rcases p with ⟨k3, v3⟩
    simp only [removeA, List.filter_cons] at ih ⊢
    by_cases h3 : k3 = k <;> by_cases h4 : k2 = k <;> by_cases h5 : k3 = k2 <;>
      simp_all [lookupA, removeA]

/-- BTreeSet insertion: keep the list sorted and duplicate-free. -/
def setInsert (x : Nat) : List Nat → List Nat
  | [] => [x]
  | y :: rest =>
    if x < y then x :: y :: rest
    else if x = y then y :: rest
    else y :: setInsert x rest

/-- The `while seen_acks.len() > 1000: pop_first` loop: drop least elements
while the set is over the cap. -/
def evict_seen (l : List Nat) : List Nat :=
  if l.length > 1000 then evict_seen l.tail else l
termination_by l.length
decreasing_by
  rename_i h
  cases l with
  | nil => simp at h
  | cons y rest => simp

inductive IOErrorKind
  | invalidData
  | invalidArgument
deriving Repr, DecidableEq

structure IOError where
  kind : IOErrorKind
  msg : String
deriving Repr, DecidableEq

structure UnackedMessage where
  packet_id : Nat
  message : OutgoingMessage
  destination : SocketAddr
deriving Repr, DecidableEq

structure ReliableSocket where
  packet_id_counter : Nat
  unacked_messages : List (Nat × UnackedMessage)
  seen_acks : List (SocketAddr × List Nat)
deriving Repr, DecidableEq

def ReliableSocket.bind : ReliableSocket :=
  { packet_id_counter := 0, unacked_messages := [], seen_acks := [] }

def MAX_RELIABLE_PACKET_SIZE : Nat := 500

def ReliableSocket.send_to (s : ReliableSocket) (message : OutgoingMessage)
    (destination : SocketAddr) : Except IOError (Nat × ReliableSocket) :=
  if message.data.length > MAX_RELIABLE_PACKET_SIZE + 32 then
    .error ⟨.invalidData, "Packet too large."⟩
  else
    let packet_id := s.packet_id_counter
    let wrapped_message :=
      ((OutgoingMessage.new.write_bool true).write_usize packet_id).write_data
        message.data
    .ok (packet_id,
      { packet_id_counter := s.packet_id_counter + 1,
        unacked_messages :=
          insertA s.unacked_messages packet_id
            ⟨packet_id, wrapped_message, destination⟩,
        seen_acks := s.seen_acks })

def send_ack_message (packet_id : Nat) : OutgoingMessage :=
  (OutgoingMessage.new.write_bool false).write_usize packet_id

/-- Events of the reliable pump. The source PacketRecieved event carries only
the remaining message; the parsed packet id is added here so that statements
can name it (it is recoverable from the datagram bytes). PacketResent is
time-driven and omitted. -/
inductive ReliableEvent
  | packetAcknowledged (packet_id : Nat)
  | packetRecieved (packet_id : Nat) (message : IncomingMessage)
deriving Repr, DecidableEq

/-- The header parse at the top of the receive loop: the is_data flag and
the packet id, with the message positioned after them. -/
def parse_header (bytes : List Nat) :
    Except String (Bool × Nat × IncomingMessage) :=
  match (IncomingMessage.new bytes).read_bool with
  | (none, _) => .error "Reliable message is not data."
  | (some is_data, m1) =>
    match m1.read_usize with
    | (none, _) => .error "Reliable message does not have ack."
    | (some packet_id, m2) => .ok (is_data, packet_id, m2)

/-- One iteration of the receive loop in ReliableSocket::pump: parse the
header, ack and dedup data packets, clear unacked entries on acks. Returns
the new state, the pushed events and the acks sent on the socket. -/
def ReliableSocket.process_datagram (s : ReliableSocket)
    (remote_address : SocketAddr) (bytes : List Nat) :
    Except String (ReliableSocket × List (ReliableEvent × SocketAddr) ×
      List (OutgoingMessage × SocketAddr)) :=
  match parse_header bytes with
  | .error e => .error e
  | .ok (is_data, packet_id, m2) =>
      if is_data then
        let acks := [(send_ack_message packet_id, remote_address)]
        if (match lookupA s.seen_acks remote_address with
            | none => true
            | some seen => !(seen.contains packet_id)) then
          let seen := (lookupA s.seen_acks remote_address).getD []
          let seen2 := evict_seen (setInsert packet_id seen)
          .ok ({ s with seen_acks := insertA s.seen_acks remote_address seen2 },
            [(.packetRecieved packet_id m2, remote_address)], acks)
        else
          .ok (s, [], acks)
      else
        match lookupA s.unacked_messages packet_id with
        | some _ =>
          .ok ({ s with unacked_messages := removeA s.unacked_messages packet_id },
            [(.packetAcknowledged packet_id, remote_address)], [])
        | none => .ok (s, [], [])

/-- Total wrapper: a datagram whose header fails to parse produces no event
and leaves the state unchanged (in the source the pump call returns Err and
the datagram is consumed without effect). -/
def ReliableSocket.step (s : ReliableSocket) (d : SocketAddr × List Nat) :
    ReliableSocket × List (ReliableEvent × SocketAddr) ×
      List (OutgoingMessage × SocketAddr) :=
  match s.process_datagram d.1 d.2 with
  | .ok r => r
  | .error _ => (s, [], [])

/-- State after the receive loop has consumed a sequence of datagrams
(possibly across several pump calls). -/
def ReliableSocket.run : ReliableSocket → List (SocketAddr × List Nat) → ReliableSocket
  | s, [] => s
  | s, d :: rest => ReliableSocket.run (s.step d).1 rest

def ReliableSocket.seen_set (s : ReliableSocket) (a : SocketAddr) : List Nat :=
  (lookupA s.seen_acks a).getD []

theorem run_append (s : ReliableSocket) (l1 l2 : List (SocketAddr × List Nat)) :
    s.run (l1 ++ l2) = (s.run l1).run l2 := by
  induction l1 generalizing s with
  | nil => rfl
  | cons d rest ih => simp [ReliableSocket.run, ih]

set_option maxRecDepth 10000 in
/-- Claim C5 counterexample: a 501-byte payload exceeds the claimed
MAX_PACKET_SIZE = 500 bound, yet send_to accepts it (the source checks
against MAX_RELIABLE_PACKET_SIZE + 32 = 532, and its error kind is
InvalidData, not InvalidArgument). -/
theorem C5_counterexample :
    MAX_RELIABLE_PACKET_SIZE <
      (⟨List.replicate 501 0⟩ : OutgoingMessage).data.length ∧
    (ReliableSocket.bind.send_to ⟨List.replicate 501 0⟩ 7).isOk = true := by
  constructor
  · simp [MAX_RELIABLE_PACKET_SIZE]
  · rfl

/-- Claim C5 amended: send_to fails, with an InvalidData-kind error, exactly
when the payload length exceeds MAX_RELIABLE_PACKET_SIZE + 32 = 532 bytes;
otherwise it assigns and returns the next monotonically increasing PacketId
(the current counter, which is then incremented) and records the wrapped
message as unacknowledged. -/
theorem C5_send_to_size_check (s : ReliableSocket) (msg : OutgoingMessage)
    (dest : SocketAddr) :
    (MAX_RELIABLE_PACKET_SIZE + 32 < msg.data.length →
      s.send_to msg dest = .error ⟨.invalidData, "Packet too large."⟩) ∧
    (msg.data.length ≤ MAX_RELIABLE_PACKET_SIZE + 32 →
      s.send_to msg dest = .ok (s.packet_id_counter,
        { packet_id_counter := s.packet_id_counter + 1,
          unacked_messages := insertA s.unacked_messages s.packet_id_counter
            ⟨s.packet_id_counter,
              ((OutgoingMessage.new.write_bool true).write_usize
                s.packet_id_counter).write_data msg.data, dest⟩,
          seen_acks := s.seen_acks })) := by
  constructor
  · intro h
    unfold ReliableSocket.send_to
    rw [if_pos (by omega)]
  · intro h
    unfold ReliableSocket.send_to
    rw [if_neg (by omega)]

/-- Witness for C5 at a concrete state and payload. -/
theorem C5_send_to_size_check_witness :
    ReliableSocket.bind.send_to ⟨[1, 2, 3]⟩ 7 = .ok (0,
      { packet_id_counter := 1,
        unacked_messages := [(0,
          ⟨0, ((OutgoingMessage.new.write_bool true).write_usize 0).write_data
            [1, 2, 3], 7⟩)],
        seen_acks := [] }) :=
  (C5_send_to_size_check ReliableSocket.bind ⟨[1, 2, 3]⟩ 7).2 (by norm_num)

theorem contains_iff (l : List Nat) (x : Nat) : l.contains x = true ↔ x ∈ l :=
  List.elem_iff

theorem mem_setInsert (x y : Nat) (l : List Nat) :
    x ∈ setInsert y l ↔ x = y ∨ x ∈ l := by
  induction l with
  | nil => simp [setInsert]
  | cons z rest ih =>
    simp only [setInsert]
    by_cases h1 : y < z
    · simp [h1]
    · by_cases h2 : y = z
      · subst h2
        simp [h1]
      · simp only [if_neg h1, if_neg h2, List.mem_cons, ih]
        tauto

theorem setInsert_all_lt (x : Nat) (l : List Nat) (h : ∀ z ∈ l, z < x) :
    setInsert x l = l ++ [x] := by
  induction l with
  | nil => rfl
  | cons z rest ih =>
    have hz : z < x := h z (List.mem_cons_self z rest)
    simp only [setInsert, if_neg (by omega : ¬ x < z), if_neg (by omega : ¬ x = z)]
    rw [ih (fun w hw => h w (List.mem_cons_of_mem z hw))]
    rfl

theorem setInsert_all_gt (x : Nat) (l : List Nat) (h : ∀ z ∈ l, x < z) :
    setInsert x l = x :: l := by
  cases l with
  | nil => rfl
  | cons z rest =>
    have hz : x < z := h z (List.mem_cons_self z rest)
    simp [setInsert, hz]

theorem length_setInsert_of_not_mem (x : Nat) (l : List Nat) (h : ¬ x ∈ l) :
    (setInsert x l).length = l.length + 1 := by
  induction l with
  | nil => rfl
  | cons z rest ih =>
    simp only [setInsert]
    by_cases h1 : x < z
    · simp [h1]
    · by_cases h2 : x = z
      · exact absurd (h2 ▸ List.mem_cons_self z rest) h
      · simp only [if_neg h1, if_neg h2, List.length_cons]
        rw [ih (fun hm => h (List.mem_cons_of_mem z hm))]

theorem evict_seen_of_le (l : List Nat) (h : l.length ≤ 1000) :
    evict_seen l = l := by
  rw [evict_seen]
  rw [if_neg (by omega)]

theorem not_mem_evict_cap (l : List Nat) (x : Nat) (hin : x ∈ l)
    (hout : ¬ x ∈ evict_seen l) : 1000 < l.length := by
  by_contra h
  rw [evict_seen_of_le l (by omega)] at hout
  exact hout hin

theorem evict_seen_cons_1001 (y : Nat) (l : List Nat) (h : l.length = 1000) :
    evict_seen (y :: l) = l := by
  rw [evict_seen]
  rw [if_pos (by simp [h])]
  show evict_seen l = l
  exact evict_seen_of_le l (by omega)

theorem fresh_cond (s : ReliableSocket) (a : SocketAddr) (pid : Nat) :
    (match lookupA s.seen_acks a with
      | none => true
      | some seen => !(seen.contains pid)) = !((s.seen_set a).contains pid) := by
  cases h : lookupA s.seen_acks a <;>
    simp [ReliableSocket.seen_set, h, List.contains]

theorem step_parse_error (s : ReliableSocket) (d : SocketAddr × List Nat)
    (e : String) (h : parse_header d.2 = .error e) : s.step d = (s, [], []) := by
  unfold ReliableSocket.step
  have hp : s.process_datagram d.1 d.2 = .error e := by
    unfold ReliableSocket.process_datagram
    rw [h]
  rw [hp]

theorem step_data_fresh (s : ReliableSocket) (a : SocketAddr) (bytes : List Nat)
    (pid : Nat) (m2 : IncomingMessage)
    (h : parse_header bytes = .ok (true, pid, m2))
    (hf : (s.seen_set a).contains pid = false) :
    s.step (a, bytes) =
      ({ s with seen_acks := (insertA s.seen_acks a
          (evict_seen (setInsert pid (s.seen_set a)))) },
        [(.packetRecieved pid m2, a)], [(send_ack_message pid, a)]) := by
  unfold ReliableSocket.step
  have hp : s.process_datagram a bytes = .ok
      ({ s with seen_acks := (insertA s.seen_acks a
          (evict_seen (setInsert pid (s.seen_set a)))) },
        [(.packetRecieved pid m2, a)], [(send_ack_message pid, a)]) := by
    unfold ReliableSocket.process_datagram
    rw [h]
    simp only [if_true]
    rw [fresh_cond, hf]
    simp only [Bool.not_false, if_true]
    rfl
  rw [hp]

theorem step_data_dup (s : ReliableSocket) (a : SocketAddr) (bytes : List Nat)
    (pid : Nat) (m2 : IncomingMessage)
    (h : parse_header bytes = .ok (true, pid, m2))
    (hf : (s.seen_set a).contains pid = true) :
    s.step (a, bytes) = (s, [], [(send_ack_message pid, a)]) := by
  unfold ReliableSocket.step
  have hp : s.process_datagram a bytes = .ok (s, [], [(send_ack_message pid, a)]) := by
    unfold ReliableSocket.process_datagram
    rw [h]
    simp only [if_true]
    rw [fresh_cond, hf]
    simp only [Bool.not_true]
    rfl
  rw [hp]

theorem step_not_data (s : ReliableSocket) (a : SocketAddr) (bytes : List Nat)
    (pid : Nat) (m2 : IncomingMessage)
    (h : parse_header bytes = .ok (false, pid, m2)) :
    (s.step (a, bytes)).1.seen_acks = s.seen_acks ∧
    (s.step (a, bytes)).2.1.all
      (fun ev => match ev.1 with
        | .packetRecieved _ _ => false
        | _ => true) = true := by
  unfold ReliableSocket.step
  have hp : s.process_datagram a bytes =
      match lookupA s.unacked_messages pid with
      | some _ =>
        .ok ({ s with unacked_messages := removeA s.unacked_messages pid },
          [(.packetAcknowledged pid, a)], [])
      | none => .ok (s, [], []) := by
    unfold ReliableSocket.process_datagram
    rw [h]
    rfl
  rw [hp]
  cases lookupA s.unacked_messages pid with
  | none => exact ⟨rfl, rfl⟩
  | some u => exact ⟨rfl, rfl⟩

theorem step_ack_some (s : ReliableSocket) (a : SocketAddr) (bytes : List Nat)
    (pid : Nat) (m2 : IncomingMessage) (u : UnackedMessage)
    (h : parse_header bytes = .ok (false, pid, m2))
    (hu : lookupA s.unacked_messages pid = some u) :
    s.step (a, bytes) =
      ({ s with unacked_messages := removeA s.unacked_messages pid },
        [(.packetAcknowledged pid, a)], []) := by
  unfold ReliableSocket.step
  have hp : s.process_datagram a bytes = .ok
      ({ s with unacked_messages := removeA s.unacked_messages pid },
        [(.packetAcknowledged pid, a)], []) := by
    unfold ReliableSocket.process_datagram
    rw [h]
    show (match lookupA s.unacked_messages pid with
      | some _ =>
        Except.ok ({ s with unacked_messages := removeA s.unacked_messages pid },
          [(ReliableEvent.packetAcknowledged pid, a)], [])
      | none => Except.ok (s, [], [])) = _
    rw [hu]
  rw [hp]

theorem step_ack_none (s : ReliableSocket) (a : SocketAddr) (bytes : List Nat)
    (pid : Nat) (m2 : IncomingMessage)
    (h : parse_header bytes = .ok (false, pid, m2))
    (hu : lookupA s.unacked_messages pid = none) :
    s.step (a, bytes) = (s, [], []) := by
  unfold ReliableSocket.step
  have hp : s.process_datagram a bytes = .ok (s, [], []) := by
    unfold ReliableSocket.process_datagram
    rw [h]
    show (match lookupA s.unacked_messages pid with
      | some _ =>
        Except.ok ({ s with unacked_messages := removeA s.unacked_messages pid },
          [(ReliableEvent.packetAcknowledged pid, a)], [])
      | none => Except.ok (s, [], [])) = _
    rw [hu]
  rw [hp]

theorem seen_set_congr (s s2 : ReliableSocket) (a : SocketAddr)
    (h : s2.seen_acks = s.seen_acks) : s2.seen_set a = s.seen_set a := by
  unfold ReliableSocket.seen_set
  rw [h]

/-- How one step can change the per-sender seen set: either not at all, or
(for a fresh data datagram from that sender) by the insert-then-evict law. -/
theorem step_seen_set (s : ReliableSocket) (d : SocketAddr × List Nat)
    (a : SocketAddr) :
    (s.step d).1.seen_set a = s.seen_set a ∨
    (d.1 = a ∧ ∃ pid m2, parse_header d.2 = .ok (true, pid, m2) ∧
      (s.seen_set a).contains pid = false ∧
      (s.step d).1.seen_set a = evict_seen (setInsert pid (s.seen_set a))) := by
  rcases d with ⟨b, bytes⟩
  cases hph : parse_header bytes with
  | error e =>
    left
    rw [step_parse_error s (b, bytes) e hph]
  | ok t =>
    rcases t with ⟨is_data, pid, m2⟩
    cases is_data with
    | false =>
      left
      cases hu : lookupA s.unacked_messages pid with
      | none => rw [step_ack_none s b bytes pid m2 hph hu]
      | some u =>
        rw [step_ack_some s b bytes pid m2 u hph hu]
        exact seen_set_congr s _ a rfl
    | true =>
      cases hf : (s.seen_set b).contains pid with
      | true =>
        left
        rw [step_data_dup s b bytes pid m2 hph hf]
      | false =>
        by_cases hba : b = a
        · subst hba
          right
          refine ⟨rfl, pid, m2, rfl, hf, ?_⟩
          rw [step_data_fresh s b bytes pid m2 hph hf]
          unfold ReliableSocket.seen_set
          simp [lookupA_insertA_self]
        · left
          rw [step_data_fresh s b bytes pid m2 hph hf]
          unfold ReliableSocket.seen_set
          simp only []
          rw [lookupA_insertA_other _ _ _ _ (fun hh => hba hh.symm)]

/-- Inversion for a PacketRecieved event: it comes from a fresh data datagram
from that address, and the step applies the insert-then-evict law. -/
theorem received_inv (s : ReliableSocket) (d : SocketAddr × List Nat)
    (a : SocketAddr) (id : Nat) (m : IncomingMessage)
    (h : (ReliableEvent.packetRecieved id m, a) ∈ (s.step d).2.1) :
    d.1 = a ∧ parse_header d.2 = .ok (true, id, m) ∧
      (s.seen_set a).contains id = false ∧
      (s.step d).1.seen_set a = evict_seen (setInsert id (s.seen_set a)) := by
  rcases d with ⟨b, bytes⟩
  cases hph : parse_header bytes with
  | error e =>
    rw [step_parse_error s (b, bytes) e hph] at h
    exact absurd h (by simp)
  | ok t =>
    rcases t with ⟨is_data, pid, m2⟩
    cases is_data with
    | false =>
      cases hu : lookupA s.unacked_messages pid with
      | none =>
        rw [step_ack_none s b bytes pid m2 hph hu] at h
        exact absurd h (by simp)
      | some u =>
        rw [step_ack_some s b bytes pid m2 u hph hu] at h
        simp at h
    | true =>
      cases hf : (s.seen_set b).contains pid with
      | true =>
        rw [step_data_dup s b bytes pid m2 hph hf] at h
        exact absurd h (by simp)
      | false =>
        rw [step_data_fresh s b bytes pid m2 hph hf] at h
        simp only [List.mem_singleton, Prod.mk.injEq,
          ReliableEvent.packetRecieved.injEq] at h
        obtain ⟨⟨hid, hm⟩, hb⟩ := h
        refine ⟨hb.symm, ?_, ?_, ?_⟩
        · rw [hid, hm]
        · rw [hb, hid]
          exact hf
        · rw [hb, hid]
          rw [step_data_fresh s b bytes pid m2 hph hf]
          unfold ReliableSocket.seen_set
          simp only [lookupA_insertA_self, Option.getD_some]

theorem run_mem_flip (s : ReliableSocket) (l : List (SocketAddr × List Nat))
    (a : SocketAddr) (id : Nat)
    (h0 : id ∈ s.seen_set a) (h1 : ¬ id ∈ (s.run l).seen_set a) :
    ∃ u d v, l = u ++ d :: v ∧ id ∈ (s.run u).seen_set a ∧
      ¬ id ∈ ((s.run u).step d).1.seen_set a := by
  induction l generalizing s with
  | nil => exact absurd h0 h1
  | cons d rest ih =>
    by_cases hm : id ∈ (s.step d).1.seen_set a
    · obtain ⟨u, d2, v, he, h2, h3⟩ := ih (s.step d).1 hm
        (by simpa [ReliableSocket.run] using h1)
      refine ⟨d :: u, d2, v, by simp [he], ?_, ?_⟩
      · show id ∈ (((s.step d).1).run u).seen_set a
        exact h2
      · show ¬ id ∈ ((((s.step d).1).run u).step d2).1.seen_set a
        exact h3
    · exact ⟨[], d, rest, rfl, h0, hm⟩

/-- A step that removes an id from a seen set must be a fresh data datagram
from that sender whose insertion pushed the set past the 1000 cap. -/
theorem step_flip_drop (s : ReliableSocket) (d : SocketAddr × List Nat)
    (a : SocketAddr) (id : Nat)
    (h0 : id ∈ s.seen_set a) (h1 : ¬ id ∈ (s.step d).1.seen_set a) :
    d.1 = a ∧ ∃ pid m2, parse_header d.2 = .ok (true, pid, m2) ∧
      (s.seen_set a).contains pid = false ∧
      id ∈ setInsert pid (s.seen_set a) ∧
      ¬ id ∈ evict_seen (setInsert pid (s.seen_set a)) ∧
      1000 < (setInsert pid (s.seen_set a)).length := by
  rcases step_seen_set s d a with heq | ⟨hda, pid, m2, hph, hf, hupd⟩
  · rw [heq] at h1
    exact absurd h0 h1
  · have hmem : id ∈ setInsert pid (s.seen_set a) :=
      (mem_setInsert id pid _).mpr (Or.inr h0)
    have hout : ¬ id ∈ evict_seen (setInsert pid (s.seen_set a)) := by
      rw [← hupd]
      exact h1
    exact ⟨hda, pid, m2, hph, hf, hmem, hout,
      not_mem_evict_cap _ id hmem hout⟩

/-- The receive-loop state after the first i datagrams, then the events of
the step that consumes datagram i. -/
def received_at (s0 : ReliableSocket) (ds : List (SocketAddr × List Nat))
    (i : Nat) (a : SocketAddr) (id : Nat) : Prop :=
  ∃ d m, ds[i]? = some d ∧
    (ReliableEvent.packetRecieved id m, a) ∈ ((s0.run (ds.take i)).step d).2.1

/-- The data packet ids sent from address a strictly between step i and
step j of the run. -/
def ids_between (ds : List (SocketAddr × List Nat)) (i j : Nat)
    (a : SocketAddr) : List Nat :=
  ((ds.drop (i + 1)).take (j - (i + 1))).filterMap
    (fun d => if d.1 = a then
      (match parse_header d.2 with
        | .ok (true, pid, _) => some pid
        | _ => none)
      else none)

/-- Step k of the run evicts id from sender a's seen set: a fresh data
datagram from a pushed the set past the 1000 cap and id was among the least
elements discarded. -/
def drops_at (s0 : ReliableSocket) (ds : List (SocketAddr × List Nat))
    (k : Nat) (a : SocketAddr) (id : Nat) : Prop :=
  ∃ bytes pid m2, ds[k]? = some (a, bytes) ∧
    parse_header bytes = .ok (true, pid, m2) ∧
    (((s0.run (ds.take k)).seen_set a).contains pid = false) ∧
    id ∈ setInsert pid ((s0.run (ds.take k)).seen_set a) ∧
    ¬ id ∈ evict_seen (setInsert pid ((s0.run (ds.take k)).seen_set a)) ∧
    1000 < (setInsert pid ((s0.run (ds.take k)).seen_set a)).length

theorem run_take_succ (s0 : ReliableSocket) (ds : List (SocketAddr × List Nat))
    (i : Nat) (d : SocketAddr × List Nat) (h : ds[i]? = some d) :
    s0.run (ds.take (i + 1)) = ((s0.run (ds.take i)).step d).1 := by
  rw [List.take_succ, h]
  rw [run_append]
  rfl

theorem step_ack_for_data (s : ReliableSocket) (a : SocketAddr)
    (bytes : List Nat) (pid : Nat) (m2 : IncomingMessage)
    (h : parse_header bytes = .ok (true, pid, m2)) :
    (s.step (a, bytes)).2.2 = [(send_ack_message pid, a)] := by
  cases hf : (s.seen_set a).contains pid with
  | false => rw [step_data_fresh s a bytes pid m2 h hf]
  | true => rw [step_data_dup s a bytes pid m2 h hf]

theorem not_mem_of_contains_false (l : List Nat) (x : Nat)
    (h : l.contains x = false) : ¬ x ∈ l := by
  intro hm
  rw [(contains_iff l x).mpr hm] at h
  exact Bool.noConfusion h

/-- Claim C6 amended: along a run of the receive loop, once a data datagram
with key (sender, packet id) has produced a PacketReceived event, a later
data datagram with the same key produces a second PacketReceived event only
if some intervening step (possibly the very first one) evicted the id: a
fresh data datagram from the same sender pushed the seen_acks set past the
1000 cap and the eviction discarded the smallest ids, among them this id.
No minimum number of intervening ids is required (the eviction can discard
the id in the same step that inserted it). Every data datagram, duplicate or
not, still triggers an ack back to its sender. -/
theorem C6_dedup_eviction (s0 : ReliableSocket)
    (ds : List (SocketAddr × List Nat)) (i j : Nat) (a : SocketAddr) (id : Nat)
    (hij : i < j) (hi : received_at s0 ds i a id)
    (hj : received_at s0 ds j a id) :
    (∃ k, i ≤ k ∧ k < j ∧ drops_at s0 ds k a id) ∧
    (∀ (s : ReliableSocket) (b : SocketAddr) (bytes : List Nat) (pid : Nat)
      (m2 : IncomingMessage), parse_header bytes = .ok (true, pid, m2) →
      (s.step (b, bytes)).2.2 = [(send_ack_message pid, b)]) := by
  refine ⟨?_, fun s b bytes pid m2 h => step_ack_for_data s b bytes pid m2 h⟩
  obtain ⟨di, mi, hdi, hmi⟩ := hi
  obtain ⟨dj, mj, hdj, hmj⟩ := hj
  obtain ⟨hdia, hphi, hfi, hupdi⟩ := received_inv _ di a id mi hmi
  obtain ⟨hdja, hphj, hfj, hupdj⟩ := received_inv _ dj a id mj hmj
  have hnotj : ¬ id ∈ (s0.run (ds.take j)).seen_set a :=
    not_mem_of_contains_false _ id hfj
  have hs1 : s0.run (ds.take (i + 1)) = ((s0.run (ds.take i)).step di).1 :=
    run_take_succ s0 ds i di hdi
  by_cases hcase : id ∈ (s0.run (ds.take (i + 1))).seen_set a
  · -- the id survived step i: some later step before j evicted it
    have hj_take : ds.take j =
        ds.take (i + 1) ++ (ds.drop (i + 1)).take (j - (i + 1)) := by
      rw [← List.take_add]
      congr 1
      omega
    have hrunj : s0.run (ds.take j) =
        (s0.run (ds.take (i + 1))).run ((ds.drop (i + 1)).take (j - (i + 1))) := by
      rw [hj_take, run_append]
    obtain ⟨u, d, v, he, h2, h3⟩ := run_mem_flip _ _ a id hcase
      (by rw [← hrunj]; exact hnotj)
    have humid : u.length < ((ds.drop (i + 1)).take (j - (i + 1))).length := by
      rw [he]
      simp
    have hmidlen : ((ds.drop (i + 1)).take (j - (i + 1))).length ≤ j - (i + 1) := by
      rw [List.length_take]
      omega
    have htakeu : (ds.drop (i + 1)).take u.length = u := by
      have h1 : ((ds.drop (i + 1)).take (j - (i + 1))).take u.length = u := by
        rw [he, List.take_left' rfl]
      rw [List.take_take] at h1
      rwa [Nat.min_eq_left (by omega)] at h1
    have hk_take : ds.take (i + 1 + u.length) = ds.take (i + 1) ++ u := by
      rw [List.take_add, htakeu]
    have hk_run : s0.run (ds.take (i + 1 + u.length)) =
        (s0.run (ds.take (i + 1))).run u := by
      rw [hk_take, run_append]
    have hk_get : ds[i + 1 + u.length]? = some d := by
      rw [← List.getElem?_drop]
      have : (ds.drop (i + 1))[u.length]? =
          ((ds.drop (i + 1)).take (j - (i + 1)))[u.length]? :=
        (List.getElem?_take_of_lt (by omega)).symm
      rw [this, he, List.getElem?_append_right (Nat.le_refl _), Nat.sub_self]
      simp
    obtain ⟨hda, pid, m2, hph, hf, hmem, hout, hcap⟩ :=
      step_flip_drop _ d a id h2 h3
    rcases d with ⟨b, bytes⟩
    subst hda
    refine ⟨i + 1 + u.length, by omega, by omega,
      bytes, pid, m2, ?_, hph, ?_, ?_, ?_, ?_⟩
    · exact hk_get
    · rw [hk_run]
      exact hf
    · rw [hk_run]
      exact hmem
    · rw [hk_run]
      exact hout
    · rw [hk_run]
      exact hcap
  · -- the id was evicted during step i itself
    rcases di with ⟨b, bytes⟩
    subst hdia
    refine ⟨i, Nat.le_refl i, by omega, bytes, id, mi, hdi, hphi, hfi, ?_, ?_, ?_⟩
    · exact (mem_setInsert id id _).mpr (Or.inl rfl)
    · rw [← hupdi, ← hs1]
      exact hcase
    · refine not_mem_evict_cap _ id ((mem_setInsert id id _).mpr (Or.inl rfl)) ?_
      rw [← hupdi, ← hs1]
      exact hcase

/-- The wire bytes of a data datagram as built by send_to: is_data flag,
packet id, payload. -/
def data_bytes (id : Nat) (payload : List Nat) : List Nat :=
  (((OutgoingMessage.new.write_bool true).write_usize id).write_data payload).data

theorem data_bytes_eq (id : Nat) (p : List Nat) :
    data_bytes id p = [1] ++ u64bytes id ++ p := by
  unfold data_bytes OutgoingMessage.write_usize
  rw [write_data_data, write_u64_data]
  rfl

theorem read_bool_pos (L : List Nat) (c b : Nat) (h : L[c]? = some b) :
    IncomingMessage.read_bool ⟨L, c⟩ = (some (b != 0), ⟨L, c + 1⟩) := by
  unfold IncomingMessage.read_bool
  rw [read_u8_pos L c b h]
  rfl

theorem parse_data_bytes (id : Nat) (p : List Nat)
    (h : id < 18446744073709551616) :
    parse_header (data_bytes id p) =
      .ok (true, id, ⟨[1] ++ u64bytes id ++ p, 9⟩) := by
  rw [data_bytes_eq]
  unfold parse_header
  have hb : IncomingMessage.read_bool ⟨[1] ++ u64bytes id ++ p, 0⟩ =
      (some true, ⟨[1] ++ u64bytes id ++ p, 1⟩) := by
    rw [read_bool_pos ([1] ++ u64bytes id ++ p) 0 1 rfl]
    rfl
  have hu : IncomingMessage.read_u64 ⟨[1] ++ u64bytes id ++ p, 1⟩ =
      (some id, ⟨[1] ++ u64bytes id ++ p, 9⟩) := by
    have e := read_u64_at [1] p id h
    simpa using e
  show (match IncomingMessage.read_bool ⟨[1] ++ u64bytes id ++ p, 0⟩ with
    | (none, _) => Except.error "Reliable message is not data."
    | (some is_data, m1) =>
      match m1.read_usize with
      | (none, _) => Except.error "Reliable message does not have ack."
      | (some packet_id, m2) => Except.ok (is_data, packet_id, m2)) = _
  rw [hb]
  show (match IncomingMessage.read_usize ⟨[1] ++ u64bytes id ++ p, 1⟩ with
    | (none, _) => Except.error "Reliable message does not have ack."
    | (some packet_id, m2) => Except.ok (true, packet_id, m2)) = _
  unfold IncomingMessage.read_usize
  rw [hu]

theorem seen_set_of_insert (c : Nat) (u : List (Nat × UnackedMessage))
    (sa : List (SocketAddr × List Nat)) (a : SocketAddr) (v : List Nat) :
    (ReliableSocket.mk c u (insertA sa a v)).seen_set a = v := by
  unfold ReliableSocket.seen_set
  simp [lookupA_insertA_self]

theorem contains_false_iff (l : List Nat) (x : Nat) :
    l.contains x = false ↔ ¬ x ∈ l := by
  rw [← contains_iff]
  cases l.contains x <;> simp

/-- Seen set of address 7 after n fresh data datagrams with ids 1..n. -/
theorem seen_range (n : Nat) (hn : n ≤ 1000) :
    (ReliableSocket.bind.run ((List.range n).map
      (fun k => ((7 : SocketAddr), data_bytes (k + 1) [])))).seen_set 7 =
      (List.range n).map (· + 1) := by
  induction n with
  | zero => simp [ReliableSocket.run, ReliableSocket.bind, ReliableSocket.seen_set, lookupA]
  | succ n ih =>
    have hn' : n ≤ 1000 := by omega
    rw [List.range_succ, List.map_append, run_append]
    have hseen := ih hn'
    have hfresh : ((ReliableSocket.bind.run ((List.range n).map
        (fun k => ((7 : SocketAddr), data_bytes (k + 1) [])))).seen_set 7).contains
        (n + 1) = false := by
      rw [hseen, contains_false_iff]
      simp only [List.mem_map, List.mem_range]
      rintro ⟨k, hk, hkeq⟩
      omega
    have hparse := parse_data_bytes (n + 1) [] (by omega)
    show ((ReliableSocket.bind.run ((List.range n).map
        (fun k => ((7 : SocketAddr), data_bytes (k + 1) [])))).step
        (7, data_bytes (n + 1) [])).1.seen_set 7 = _
    rw [step_data_fresh _ 7 (data_bytes (n + 1) []) (n + 1) _ hparse hfresh]
    rw [seen_set_of_insert]
    rw [hseen]
    rw [setInsert_all_lt (n + 1) _ (by
      simp only [List.mem_map, List.mem_range]
      rintro z ⟨k, hk, hkeq⟩
      omega)]
    rw [evict_seen_of_le _ (by
      rw [List.length_append, List.length_map, List.length_range]
      simp
      omega)]
    simp

def cex_head : List (SocketAddr × List Nat) :=
  (List.range 1000).map (fun k => ((7 : SocketAddr), data_bytes (k + 1) []))

/-- 1000 distinct ids 1..1000 from address 7, then the same id 0 twice. -/
def ds_cex : List (SocketAddr × List Nat) :=
  cex_head ++ [(7, data_bytes 0 []), (7, data_bytes 0 [])]

theorem cex_head_len : cex_head.length = 1000 := by
  simp [cex_head]

theorem seen_1000 : (ReliableSocket.bind.run cex_head).seen_set 7 =
    (List.range 1000).map (· + 1) :=
  seen_range 1000 (Nat.le_refl 1000)

theorem fresh0 : (((List.range 1000).map (· + 1)) : List Nat).contains 0 = false := by
  rw [contains_false_iff]
  simp only [List.mem_map, List.mem_range]
  rintro ⟨k, hk, hkeq⟩
  omega

theorem take_1000 : ds_cex.take 1000 = cex_head := by
  unfold ds_cex
  exact List.take_left' cex_head_len

theorem get_1000 : ds_cex[1000]? = some (7, data_bytes 0 []) := by
  unfold ds_cex
  rw [List.getElem?_append_right (by rw [cex_head_len])]
  rw [cex_head_len]
  rfl

theorem received_1000 : received_at ReliableSocket.bind ds_cex 1000 7 0 := by
  refine ⟨(7, data_bytes 0 []), ⟨[1] ++ u64bytes 0 ++ [], 9⟩, get_1000, ?_⟩
  rw [take_1000]
  rw [step_data_fresh _ 7 (data_bytes 0 []) 0 _ (parse_data_bytes 0 [] (by norm_num))
    (by rw [seen_1000]; exact fresh0)]
  exact List.mem_singleton.mpr rfl

theorem take_1001 : ds_cex.take 1001 = cex_head ++ [(7, data_bytes 0 [])] := by
  show (cex_head ++ ([(7, data_bytes 0 [])] ++ [(7, data_bytes 0 [])])).take 1001 = _
  rw [← List.append_assoc]
  exact List.take_left' (by rw [List.length_append, cex_head_len]; rfl)

theorem run_snoc (s : ReliableSocket) (l : List (SocketAddr × List Nat))
    (d : SocketAddr × List Nat) : s.run (l ++ [d]) = ((s.run l).step d).1 := by
  rw [run_append]
  rfl

theorem seen_1001 : (ReliableSocket.bind.run (ds_cex.take 1001)).seen_set 7 =
    (List.range 1000).map (· + 1) := by
  rw [take_1001, run_snoc]
  rw [step_data_fresh _ 7 (data_bytes 0 []) 0 _ (parse_data_bytes 0 [] (by norm_num))
    (by rw [seen_1000]; exact fresh0)]
  rw [seen_set_of_insert]
  rw [seen_1000]
  rw [setInsert_all_gt 0 _ (by
    simp only [List.mem_map, List.mem_range]
    rintro z ⟨k, hk, hkeq⟩
    omega)]
  exact evict_seen_cons_1001 0 _ (by simp)

theorem get_1001 : ds_cex[1001]? = some (7, data_bytes 0 []) := by
  show ((cex_head ++ [(7, data_bytes 0 [])]) ++ [(7, data_bytes 0 [])])[1001]? = _
  rw [List.getElem?_append_right (by rw [List.length_append, cex_head_len]; norm_num)]
  rw [List.length_append, cex_head_len]
  rfl

theorem received_1001 : received_at ReliableSocket.bind ds_cex 1001 7 0 := by
  refine ⟨(7, data_bytes 0 []), ⟨[1] ++ u64bytes 0 ++ [], 9⟩, get_1001, ?_⟩
  rw [step_data_fresh _ 7 (data_bytes 0 []) 0 _ (parse_data_bytes 0 [] (by norm_num))
    (by rw [seen_1001]; exact fresh0)]
  exact List.mem_singleton.mpr rfl

/-- Claim C6 counterexample: after 1000 distinct ids (1..1000) from one
sender, the datagram with id 0 is received, inserted, and immediately
evicted as the least element of the over-cap set; the very next datagram
with the same id 0 therefore produces a second PacketReceived with zero
intervening datagrams — refuting the claim that a second delivery requires
at least 1000 intervening distinct ids between the two events. -/
theorem C6_counterexample :
    received_at ReliableSocket.bind ds_cex 1000 7 0 ∧
    received_at ReliableSocket.bind ds_cex 1001 7 0 ∧
    ids_between ds_cex 1000 1001 7 = [] ∧
    ¬ (∀ i j, i < j → received_at ReliableSocket.bind ds_cex i 7 0 →
        received_at ReliableSocket.bind ds_cex j 7 0 →
        1000 ≤ (ids_between ds_cex i j 7).dedup.length) := by
  have hempty : ids_between ds_cex 1000 1001 7 = [] := rfl
  refine ⟨received_1000, received_1001, hempty, ?_⟩
  intro hall
  have := hall 1000 1001 (by omega) received_1000 received_1001
  rw [hempty] at this
  simp at this

/-- Witness for C6 at the concrete adversarial run. -/
theorem C6_dedup_eviction_witness :
    (∃ k, 1000 ≤ k ∧ k < 1001 ∧ drops_at ReliableSocket.bind ds_cex k 7 0) ∧
    (∀ (s : ReliableSocket) (b : SocketAddr) (bytes : List Nat) (pid : Nat)
      (m2 : IncomingMessage), parse_header bytes = .ok (true, pid, m2) →
      (s.step (b, bytes)).2.2 = [(send_ack_message pid, b)]) :=
  C6_dedup_eviction ReliableSocket.bind ds_cex 1000 1001 7 0 (by omega)
    received_1000 received_1001

/-!
## Frame socket (src/udp_ext/src/frame.rs)

The receive half accumulates PartialFrames per (sender address, frame id)
and reassembles components by index; the send half splits a message into
wrapped components. The reliable layer underneath (acks, dedup, resend) is
modelled above; here components are delivered as the IncomingMessage the
reliable layer hands over, positioned at the frame header (equivalently,
at cursor 0 of the component wire bytes).
-/

def MAX_FRAME_PACKET_DATA_SIZE : Nat := MAX_RELIABLE_PACKET_SIZE - 24

structure PartialFrame where
  frame_components : List (Nat × IncomingMessage)
  remaining_components : Nat
deriving Repr, DecidableEq

def PartialFrame.new (component_count : Nat) : PartialFrame :=
  ⟨[], component_count⟩

inductive AddComponentResult
  | done (message : IncomingMessage)
  | unfinished (pf : PartialFrame)
deriving Repr, DecidableEq

/-- The reassembly loop of complete_frame_if_done: components are read out
in index order 0..len-1; a missing index is a panic (expect) in the source,
modelled as none. -/
def assemble_components (components : List (Nat × IncomingMessage)) :
    Option (List Nat) :=
  ((List.range components.length).mapM
    (fun i => (lookupA components i).map (fun m => m.read_rest))).map List.join

def PartialFrame.complete_frame_if_done (p : PartialFrame) :
    Except String AddComponentResult :=
  if p.remaining_components > 0 then .ok (.unfinished p)
  else
    match assemble_components p.frame_components with
    | some bytes => .ok (.done (IncomingMessage.new bytes))
    | none => .error "Missing frame component"

/-- add_component: read the component index, store the message after it,
decrement the remaining count (Nat subtraction; the source usize would
underflow only on over-delivery, which the reliable dedup prevents). -/
def PartialFrame.add_component (p : PartialFrame) (component : IncomingMessage) :
    Except String AddComponentResult :=
  match component.read_usize with
  | (none, _) => .error "Component does not have size"
  | (some component_position, component2) =>
    PartialFrame.complete_frame_if_done
      ⟨insertA p.frame_components component_position component2,
        p.remaining_components - 1⟩

structure FrameSocket where
  partial_frames : List ((SocketAddr × Nat) × PartialFrame)
deriving Repr, DecidableEq

inductive FrameEvent
  | frameComponentRecieved (parent_frame : Nat) (remaining_components : Nat)
  | frameCompleted (frame_id : Nat) (message : IncomingMessage)
deriving Repr, DecidableEq

/-- The PacketRecieved branch of FrameSocket::pump. -/
def FrameSocket.receive_component (st : FrameSocket) (remote_address : SocketAddr)
    (message : IncomingMessage) :
    Except String (FrameSocket × List (FrameEvent × SocketAddr)) :=
  match message.read_usize with
  | (none, _) => .error "Frame message does not have frame id"
  | (some frame_id, m1) =>
    match m1.read_usize with
    | (none, _) => .error "Frame message does not have component count"
    | (some component_count, m2) =>
      let frame_key := (remote_address, frame_id)
      let pf := (lookupA st.partial_frames frame_key).getD
        (PartialFrame.new component_count)
      let st1 : FrameSocket := ⟨removeA st.partial_frames frame_key⟩
      match pf.add_component m2 with
      | .error e => .error e
      | .ok (.unfinished p) =>
        .ok (⟨insertA st1.partial_frames frame_key p⟩,
          [(.frameComponentRecieved frame_id p.remaining_components,
            remote_address)])
      | .ok (.done msg) =>
        .ok (st1, [(.frameCompleted frame_id msg, remote_address)])

def FrameSocket.receive_run (st : FrameSocket) (a : SocketAddr) :
    List IncomingMessage →
    Except String (FrameSocket × List (FrameEvent × SocketAddr))
  | [] => .ok (st, [])
  | c :: rest =>
    match st.receive_component a c with
    | .error e => .error e
    | .ok (st2, evs) =>
      match st2.receive_run a rest with
      | .error e => .error e
      | .ok (st3, evs2) => .ok (st3, evs ++ evs2)

/-- ceil(len / MAX_FRAME_PACKET_DATA_SIZE): the source computes this with
f64 arithmetic, exact for any realistic length. -/
def component_count_of (data_length : Nat) : Nat :=
  (data_length + (MAX_FRAME_PACKET_DATA_SIZE - 1)) / MAX_FRAME_PACKET_DATA_SIZE

/-- One wrapped component as built in FrameSocket::send_to. -/
def wrap_component (frame_id count i : Nat) (chunk : List Nat) : OutgoingMessage :=
  (((OutgoingMessage.new.write_usize frame_id).write_usize count).write_usize i).write_data
    chunk

/-- The component-building loop of send_to: k iterations of
read_at_most_n_u8s over the readable message, wrapping each chunk. -/
def wrap_loop (frame_id count : Nat) (m : IncomingMessage) (i k : Nat) :
    List OutgoingMessage :=
  match k with
  | 0 => []
  | k + 1 =>
    let r := m.read_at_most_n_u8s MAX_FRAME_PACKET_DATA_SIZE
    wrap_component frame_id count i r.1 :: wrap_loop frame_id count r.2 (i + 1) k

/-- The list of wrapped components queued by FrameSocket::send_to. -/
def send_components (frame_id : Nat) (message : OutgoingMessage) :
    List OutgoingMessage :=
  wrap_loop frame_id (component_count_of message.data.length)
    message.into_incoming 0 (component_count_of message.data.length)

def completed_event (ev : FrameEvent × SocketAddr) : Option (Nat × IncomingMessage) :=
  match ev with
  | (.frameCompleted f m, _) => some (f, m)
  | _ => none

/-! ### Sender-side characterisation of send_to -/

/-- Chunk i of a payload: 476-byte slices in order. -/
def chunkAt (data : List Nat) (i : Nat) : List Nat :=
  (data.drop (MAX_FRAME_PACKET_DATA_SIZE * i)).take MAX_FRAME_PACKET_DATA_SIZE

/-- The wire bytes of one wrapped component. -/
def component_wire (fid count i : Nat) (chunk : List Nat) : List Nat :=
  u64bytes fid ++ (u64bytes count ++ (u64bytes i ++ chunk))

theorem wrap_component_data (fid count i : Nat) (chunk : List Nat) :
    (wrap_component fid count i chunk).data = component_wire fid count i chunk := by
  unfold wrap_component component_wire
  simp [OutgoingMessage.write_usize, OutgoingMessage.new]

theorem wrap_component_into (fid count i : Nat) (chunk : List Nat) :
    (wrap_component fid count i chunk).into_incoming =
      IncomingMessage.new (component_wire fid count i chunk) := by
  unfold OutgoingMessage.into_incoming
  rw [wrap_component_data]

theorem wrap_loop_succ (fid count : Nat) (m : IncomingMessage) (i k : Nat) :
    wrap_loop fid count m i (k + 1) =
      wrap_component fid count i (m.read_at_most_n_u8s MAX_FRAME_PACKET_DATA_SIZE).1 ::
        wrap_loop fid count (m.read_at_most_n_u8s MAX_FRAME_PACKET_DATA_SIZE).2
          (i + 1) k := rfl

theorem wrap_loop_eq (fid count : Nat) (data : List Nat) :
    ∀ (k i : Nat),
      wrap_loop fid count ⟨data, min (MAX_FRAME_PACKET_DATA_SIZE * i) data.length⟩ i k =
        (List.range' i k).map (fun j => wrap_component fid count j (chunkAt data j)) := by
  intro k
  induction k with
  | zero => intro i; rfl
  | succ k ih =>
    intro i
    have hW : MAX_FRAME_PACKET_DATA_SIZE = 476 := rfl
    have hwf : (⟨data, min (MAX_FRAME_PACKET_DATA_SIZE * i) data.length⟩ :
        IncomingMessage).wf := by
      show min (MAX_FRAME_PACKET_DATA_SIZE * i) data.length ≤ data.length
      omega
    have hspec := read_at_most_n_u8s_spec MAX_FRAME_PACKET_DATA_SIZE
      ⟨data, min (MAX_FRAME_PACKET_DATA_SIZE * i) data.length⟩ hwf
    rw [wrap_loop_succ]
    simp only [hspec]
    have hchunk : (data.drop (min (MAX_FRAME_PACKET_DATA_SIZE * i) data.length)).take
        MAX_FRAME_PACKET_DATA_SIZE = chunkAt data i := by
      rcases Nat.le_total (MAX_FRAME_PACKET_DATA_SIZE * i) data.length with h | h
      · rw [Nat.min_eq_left h]; rfl
      · rw [Nat.min_eq_right h]
        unfold chunkAt
        rw [List.drop_eq_nil_of_le (Nat.le_refl _), List.drop_eq_nil_of_le h]
    have hcur : min (MAX_FRAME_PACKET_DATA_SIZE * i) data.length +
        min MAX_FRAME_PACKET_DATA_SIZE
          (data.length - min (MAX_FRAME_PACKET_DATA_SIZE * i) data.length) =
        min (MAX_FRAME_PACKET_DATA_SIZE * (i + 1)) data.length := by
      rw [hW] at *
      omega
    rw [hchunk, hcur, ih (i + 1)]
    rfl

theorem send_components_eq (fid : Nat) (msg : OutgoingMessage) :
    send_components fid msg =
      (List.range (component_count_of msg.data.length)).map
        (fun j => wrap_component fid (component_count_of msg.data.length) j
          (chunkAt msg.data j)) := by
  have h0 : msg.into_incoming =
      ⟨msg.data, min (MAX_FRAME_PACKET_DATA_SIZE * 0) msg.data.length⟩ := by
    simp [OutgoingMessage.into_incoming, IncomingMessage.new]
  unfold send_components
  rw [h0, wrap_loop_eq, List.range_eq_range']

theorem join_chunks (data : List Nat) :
    ∀ (k i : Nat), data.length ≤ MAX_FRAME_PACKET_DATA_SIZE * (i + k) →
      ((List.range' i k).map (chunkAt data)).join =
        data.drop (MAX_FRAME_PACKET_DATA_SIZE * i) := by
  intro k
  induction k with
  | zero =>
    intro i h
    have h2 : data.drop (MAX_FRAME_PACKET_DATA_SIZE * i) = [] :=
      List.drop_eq_nil_of_le (by simpa using h)
    simp [h2]
  | succ k ih =>
    intro i h
    have hW : MAX_FRAME_PACKET_DATA_SIZE = 476 := rfl
    have h2 : data.length ≤ MAX_FRAME_PACKET_DATA_SIZE * ((i + 1) + k) := by
      rw [hW] at h ⊢
      omega
    rw [show List.range' i (k + 1) = i :: List.range' (i + 1) k from rfl,
      List.map_cons,
      show (chunkAt data i :: (List.range' (i + 1) k).map (chunkAt data)).join =
        chunkAt data i ++ ((List.range' (i + 1) k).map (chunkAt data)).join from rfl,
      ih (i + 1) h2]
    show chunkAt data i ++ _ = _
    unfold chunkAt
    rw [show MAX_FRAME_PACKET_DATA_SIZE * (i + 1) =
        MAX_FRAME_PACKET_DATA_SIZE * i + MAX_FRAME_PACKET_DATA_SIZE from by
      rw [Nat.mul_add, Nat.mul_one]]
    rw [← List.drop_drop]
    exact List.take_append_drop _ _

/-! ### Receiver-side characterisation of the pump branch -/

theorem component_wire_read_fid (fid count i : Nat) (chunk : List Nat)
    (hfid : fid < 18446744073709551616) :
    (IncomingMessage.new (component_wire fid count i chunk)).read_usize =
      (some fid, ⟨component_wire fid count i chunk, 8⟩) := by
  have h := read_u64_at [] (u64bytes count ++ (u64bytes i ++ chunk)) fid hfid
  simpa [component_wire, IncomingMessage.new, IncomingMessage.read_usize] using h

theorem component_wire_read_count (fid count i : Nat) (chunk : List Nat)
    (hcount : count < 18446744073709551616) :
    (⟨component_wire fid count i chunk, 8⟩ : IncomingMessage).read_usize =
      (some count, ⟨component_wire fid count i chunk, 16⟩) := by
  have h := read_u64_at (u64bytes fid) (u64bytes i ++ chunk) count hcount
  simpa [component_wire, IncomingMessage.read_usize] using h

theorem component_wire_read_index (fid count i : Nat) (chunk : List Nat)
    (hi : i < 18446744073709551616) :
    (⟨component_wire fid count i chunk, 16⟩ : IncomingMessage).read_usize =
      (some i, ⟨component_wire fid count i chunk, 24⟩) := by
  have h := read_u64_at (u64bytes fid ++ u64bytes count) chunk i hi
  simpa [component_wire, IncomingMessage.read_usize, List.append_assoc] using h

theorem component_wire_read_rest (fid count i : Nat) (chunk : List Nat) :
    (⟨component_wire fid count i chunk, 24⟩ : IncomingMessage).read_rest = chunk := by
  show List.drop 24 (component_wire fid count i chunk) = chunk
  unfold component_wire
  rw [show (24 : Nat) = (u64bytes fid).length + 16 from by rw [u64bytes_length],
    List.drop_append,
    show (16 : Nat) = (u64bytes count).length + 8 from by rw [u64bytes_length],
    List.drop_append]
  exact List.drop_left' (u64bytes_length i)

theorem add_component_eq (p : PartialFrame) (m m2 : IncomingMessage) (i : Nat)
    (h : m.read_usize = (some i, m2)) :
    p.add_component m = PartialFrame.complete_frame_if_done
      ⟨insertA p.frame_components i m2, p.remaining_components - 1⟩ := by
  unfold PartialFrame.add_component
  rw [h]

/-- Receiving a component that leaves other components outstanding. -/
theorem receive_component_unfinished (st : FrameSocket) (a : SocketAddr)
    (fid count i : Nat) (chunk : List Nat) (pf p2 : PartialFrame)
    (hfid : fid < 18446744073709551616) (hcount : count < 18446744073709551616)
    (hi : i < 18446744073709551616)
    (hpf : (lookupA st.partial_frames (a, fid)).getD (PartialFrame.new count) = pf)
    (hp2 : p2 = ⟨insertA pf.frame_components i
      ⟨component_wire fid count i chunk, 24⟩, pf.remaining_components - 1⟩)
    (hrem : 0 < p2.remaining_components) :
    st.receive_component a (IncomingMessage.new (component_wire fid count i chunk)) =
      .ok (⟨insertA (removeA st.partial_frames (a, fid)) (a, fid) p2⟩,
        [(.frameComponentRecieved fid p2.remaining_components, a)]) := by
  have hc : PartialFrame.complete_frame_if_done p2 = .ok (.unfinished p2) := by
    unfold PartialFrame.complete_frame_if_done
    rw [if_pos hrem]
  simp only [FrameSocket.receive_component, component_wire_read_fid fid count i chunk hfid,
    component_wire_read_count fid count i chunk hcount]
  rw [hpf, add_component_eq pf _ _ i (component_wire_read_index fid count i chunk hi),
    ← hp2, hc]

/-- Receiving the last outstanding component of a frame. -/
theorem receive_component_done (st : FrameSocket) (a : SocketAddr)
    (fid count i : Nat) (chunk : List Nat) (pf p2 : PartialFrame) (bytes : List Nat)
    (hfid : fid < 18446744073709551616) (hcount : count < 18446744073709551616)
    (hi : i < 18446744073709551616)
    (hpf : (lookupA st.partial_frames (a, fid)).getD (PartialFrame.new count) = pf)
    (hp2 : p2 = ⟨insertA pf.frame_components i
      ⟨component_wire fid count i chunk, 24⟩, pf.remaining_components - 1⟩)
    (hrem : p2.remaining_components = 0)
    (hasm : assemble_components p2.frame_components = some bytes) :
    st.receive_component a (IncomingMessage.new (component_wire fid count i chunk)) =
      .ok (⟨removeA st.partial_frames (a, fid)⟩,
        [(.frameCompleted fid (IncomingMessage.new bytes), a)]) := by
  have hc : PartialFrame.complete_frame_if_done p2 =
      .ok (.done (IncomingMessage.new bytes)) := by
    unfold PartialFrame.complete_frame_if_done
    rw [if_neg (by omega), hasm]
  simp only [FrameSocket.receive_component, component_wire_read_fid fid count i chunk hfid,
    component_wire_read_count fid count i chunk hcount]
  rw [hpf, add_component_eq pf _ _ i (component_wire_read_index fid count i chunk hi),
    ← hp2, hc]

theorem length_insertA_fresh {κ β : Type} [DecidableEq κ]
    (l : List (κ × β)) (k : κ) (v : β) (h : lookupA l k = none) :
    (insertA l k v).length = l.length + 1 := by
  induction l with
  | nil => rfl
  | cons p rest ih =>
    rcases p with ⟨k2, v2⟩
    by_cases h2 : k2 = k
    · simp [lookupA, h2] at h
    · simp only [lookupA, if_neg h2] at h
      simp [insertA, if_neg h2, ih h]

theorem mapM_lookup {β : Type} (l : List Nat) (f : Nat → Option β) (g : Nat → β)
    (h : ∀ x ∈ l, f x = some (g x)) : l.mapM f = some (l.map g) := by
  induction l with
  | nil => rfl
  | cons x xs ih =>
    rw [List.mapM_cons, h x (List.mem_cons_self x xs),
      ih (fun y hy => h y (List.mem_cons_of_mem x hy))]
    rfl

theorem removeA_single {κ β : Type} [DecidableEq κ] (k : κ) (v : β) :
    removeA [(k, v)] k = [] := by
  simp only [removeA, List.filter_cons]
  rw [show (k != k) = false from by simp [bne]]
  rfl

theorem receive_run_cons (st : FrameSocket) (a : SocketAddr) (c : IncomingMessage)
    (cs : List IncomingMessage) :
    st.receive_run a (c :: cs) =
      match st.receive_component a c with
      | .error e => .error e
      | .ok (st2, evs) =>
        match st2.receive_run a cs with
        | .error e => .error e
        | .ok (st3, evs2) => .ok (st3, evs ++ evs2) := rfl

theorem receive_run_cons_ok (st st2 : FrameSocket) (a : SocketAddr)
    (c : IncomingMessage) (cs : List IncomingMessage)
    (evs : List (FrameEvent × SocketAddr))
    (h : st.receive_component a c = .ok (st2, evs)) :
    st.receive_run a (c :: cs) =
      match st2.receive_run a cs with
      | .error e => .error e
      | .ok (st3, evs2) => .ok (st3, evs ++ evs2) := by
  rw [receive_run_cons, h]

/-- Invariant induction for reassembly: after any set done of distinct indices
has been delivered (rest still outstanding, done ++ rest a permutation of all
indices), the socket holds exactly the one partial frame with the stored
components; the remaining deliveries complete the frame with payload data. -/
theorem receive_run_inv (a : SocketAddr) (fid count : Nat) (data : List Nat)
    (hfid : fid < 18446744073709551616)
    (hcount : count < 18446744073709551616)
    (hjoin : data.length ≤ MAX_FRAME_PACKET_DATA_SIZE * count) :
    ∀ (rest done : List Nat) (st : FrameSocket)
      (assoc : List (Nat × IncomingMessage)),
      rest ≠ [] →
      (done ++ rest).Perm (List.range count) →
      removeA st.partial_frames (a, fid) = [] →
      (lookupA st.partial_frames (a, fid)).getD (PartialFrame.new count) =
        ⟨assoc, count - done.length⟩ →
      assoc.length = done.length →
      (∀ j2, lookupA assoc j2 = if j2 ∈ done then
          some ⟨component_wire fid count j2 (chunkAt data j2), 24⟩ else none) →
      ∃ evs, st.receive_run a (rest.map (fun j =>
          (wrap_component fid count j (chunkAt data j)).into_incoming)) =
          .ok (⟨[]⟩, evs) ∧
        evs.filterMap completed_event = [(fid, IncomingMessage.new data)] := by
  intro rest
  induction rest with
  | nil => intro done st assoc hne _ _ _ _ _; exact absurd rfl hne
  | cons j rest ih =>
    intro done st assoc _ hperm hrm hpf hlen hlook
    have hnd : (done ++ j :: rest).Nodup :=
      hperm.nodup_iff.mpr (List.nodup_range count)
    have hndparts := List.nodup_append.mp hnd
    have hjdone : j ∉ done := fun hj => hndparts.2.2 hj (List.mem_cons_self j rest)
    have hjcount : j < count := by
      have hm : j ∈ List.range count := hperm.mem_iff.mp (by simp)
      simpa using hm
    have hlencount : done.length + (rest.length + 1) = count := by
      have hl := hperm.length_eq
      simpa using hl
    have hfresh : lookupA assoc j = none := by
      rw [hlook j]
      simp [hjdone]
    rcases eq_or_ne rest [] with hrest | hrest
    · subst hrest
      simp only [List.length_nil] at hlencount
      have hc1 : count - done.length = 1 := by omega
      have hlen2 : (insertA assoc j
          ⟨component_wire fid count j (chunkAt data j), 24⟩).length = count := by
        rw [length_insertA_fresh assoc j _ hfresh]
        omega
      have hlookup2 : ∀ x ∈ List.range (insertA assoc j
            ⟨component_wire fid count j (chunkAt data j), 24⟩).length,
          (lookupA (insertA assoc j
              ⟨component_wire fid count j (chunkAt data j), 24⟩) x).map
            (fun m => m.read_rest) = some (chunkAt data x) := by
        intro x hx
        rw [hlen2] at hx
        have hxc : x < count := by simpa using hx
        by_cases hxj : x = j
        · subst hxj
          rw [lookupA_insertA_self]
          simp [component_wire_read_rest]
        · rw [lookupA_insertA_other assoc j x _ hxj, hlook x]
          have hxdone : x ∈ done := by
            have hx2 : x ∈ done ++ j :: [] := hperm.symm.mem_iff.mp (by simpa using hxc)
            simp at hx2
            rcases hx2 with h | h
            · exact h
            · exact absurd h hxj
          rw [if_pos hxdone]
          simp [component_wire_read_rest]
      have hasm : assemble_components (insertA assoc j
          ⟨component_wire fid count j (chunkAt data j), 24⟩) = some data := by
        unfold assemble_components
        rw [mapM_lookup _ _ (fun x => chunkAt data x) hlookup2, hlen2]
        have hj0 : ((List.range count).map (chunkAt data)).join = data := by
          rw [List.range_eq_range', join_chunks data count 0 (by simpa using hjoin)]
          simp
        simp [hj0]
      have hstep := receive_component_done st a fid count j (chunkAt data j)
        ⟨assoc, count - done.length⟩
        ⟨insertA assoc j ⟨component_wire fid count j (chunkAt data j), 24⟩, 0⟩
        data hfid hcount (by omega) hpf
        (by rw [show count - done.length - 1 = 0 from by omega]) rfl hasm
      refine ⟨[(.frameCompleted fid (IncomingMessage.new data), a)], ?_, by
        simp [completed_event]⟩
      rw [List.map_cons, List.map_nil, wrap_component_into,
        receive_run_cons_ok st _ a _ _ _ hstep, hrm]
      rfl
    · have hstep := receive_component_unfinished st a fid count j (chunkAt data j)
        ⟨assoc, count - done.length⟩
        ⟨insertA assoc j ⟨component_wire fid count j (chunkAt data j), 24⟩,
          count - done.length - 1⟩
        hfid hcount (by omega) hpf rfl
        (by
          show 0 < count - done.length - 1
          have hr1 : 1 ≤ rest.length := by
            cases rest with
            | nil => exact absurd rfl hrest
            | cons x xs => simp
          omega)
      have hperm2 : ((done ++ [j]) ++ rest).Perm (List.range count) := by
        rw [List.append_assoc]
        exact hperm
      have hrm2 : removeA (insertA (removeA st.partial_frames (a, fid)) (a, fid)
          ⟨insertA assoc j ⟨component_wire fid count j (chunkAt data j), 24⟩,
            count - done.length - 1⟩) (a, fid) = [] := by
        rw [hrm, show insertA ([] : List ((SocketAddr × Nat) × PartialFrame)) (a, fid)
          ⟨insertA assoc j ⟨component_wire fid count j (chunkAt data j), 24⟩,
            count - done.length - 1⟩ = [((a, fid),
          ⟨insertA assoc j ⟨component_wire fid count j (chunkAt data j), 24⟩,
            count - done.length - 1⟩)] from rfl]
        exact removeA_single _ _
      have hpf2 : (lookupA (insertA (removeA st.partial_frames (a, fid)) (a, fid)
            ⟨insertA assoc j ⟨component_wire fid count j (chunkAt data j), 24⟩,
              count - done.length - 1⟩) (a, fid)).getD (PartialFrame.new count) =
          ⟨insertA assoc j ⟨component_wire fid count j (chunkAt data j), 24⟩,
            count - (done ++ [j]).length⟩ := by
        rw [lookupA_insertA_self]
        simp only [Option.getD_some, List.length_append, List.length_cons,
          List.length_nil]
        rw [show count - done.length - 1 = count - (done.length + (0 + 1)) from by omega]
      have hlen2 : (insertA assoc j
          ⟨component_wire fid count j (chunkAt data j), 24⟩).length =
          (done ++ [j]).length := by
        rw [length_insertA_fresh assoc j _ hfresh, hlen]
        simp
      have hlook2 : ∀ j2, lookupA (insertA assoc j
            ⟨component_wire fid count j (chunkAt data j), 24⟩) j2 =
          if j2 ∈ done ++ [j] then
            some ⟨component_wire fid count j2 (chunkAt data j2), 24⟩ else none := by
        intro j2
        by_cases hj2 : j2 = j
        · subst hj2
          rw [lookupA_insertA_self, if_pos (by simp)]
        · rw [lookupA_insertA_other assoc j j2 _ hj2, hlook j2]
          by_cases hj2d : j2 ∈ done
          · rw [if_pos hj2d, if_pos (by simp [hj2d])]
          · rw [if_neg hj2d, if_neg (by simp [hj2d, hj2])]
      obtain ⟨evs2, hrun2, hfil2⟩ := ih (done ++ [j])
        ⟨insertA (removeA st.partial_frames (a, fid)) (a, fid)
          ⟨insertA assoc j ⟨component_wire fid count j (chunkAt data j), 24⟩,
            count - done.length - 1⟩⟩
        (insertA assoc j ⟨component_wire fid count j (chunkAt data j), 24⟩)
        hrest hperm2 hrm2 hpf2 hlen2 hlook2
      refine ⟨(.frameComponentRecieved fid (count - done.length - 1), a) :: evs2,
        ?_, ?_⟩
      · rw [List.map_cons, wrap_component_into,
          receive_run_cons_ok st _ a _ _ _ hstep, hrun2]
        rfl
      · simp [completed_event, hfil2]

/-- C7 counterexample: the empty message. send_to splits an empty payload into
ceil(0/476) = 0 components, so nothing is sent; delivering those components (in
the unique — empty — permutation of their indices) produces no FrameCompleted
event at all, not exactly one carrying the original (empty) payload. -/
theorem C7_counterexample :
    send_components 0 OutgoingMessage.new = [] ∧
    FrameSocket.receive_run ⟨[]⟩ 0
        ((send_components 0 OutgoingMessage.new).map OutgoingMessage.into_incoming) =
      .ok (⟨[]⟩, []) ∧
    ¬ ∃ evs st, FrameSocket.receive_run ⟨[]⟩ 0
          ((send_components 0 OutgoingMessage.new).map OutgoingMessage.into_incoming) =
        .ok (st, evs) ∧
      evs.filterMap completed_event = [(0, OutgoingMessage.new.into_incoming)] := by
  refine ⟨rfl, rfl, ?_⟩
  rintro ⟨evs, st, h1, h2⟩
  have h1t : (Except.ok (FrameSocket.mk [], ([] : List (FrameEvent × SocketAddr))) :
      Except String (FrameSocket × List (FrameEvent × SocketAddr))) = .ok (st, evs) := h1
  simp only [Except.ok.injEq, Prod.mk.injEq] at h1t
  rw [← h1t.2] at h2
  simp at h2

/-- Claim C7 (corrected: the payload must be non-empty; an empty message is
split into zero components and is never reassembled). For a non-empty payload
split by send_to into its n = ceil(len/476) wrapped components, delivering
those components to a fresh receiving frame socket in any permutation of their
indices succeeds, leaves no partial frame behind, and yields exactly one
FrameCompleted event whose payload is the concatenation of the component
chunks in index order — the originally sent message — regardless of arrival
order. (Index and frame ids are bounded by u64 as on the wire.) -/
theorem C7_frame_reassembly (a : SocketAddr) (fid : Nat) (msg : OutgoingMessage)
    (hne : msg.data ≠ [])
    (hfid : fid < 18446744073709551616)
    (hlen : msg.data.length < 18446744073709551616)
    (idxs : List Nat)
    (hperm : idxs.Perm (List.range (component_count_of msg.data.length))) :
    send_components fid msg =
      (List.range (component_count_of msg.data.length)).map
        (fun j => wrap_component fid (component_count_of msg.data.length) j
          (chunkAt msg.data j)) ∧
    ∃ evs, FrameSocket.receive_run ⟨[]⟩ a (idxs.map (fun j =>
        (wrap_component fid (component_count_of msg.data.length) j
          (chunkAt msg.data j)).into_incoming)) = .ok (⟨[]⟩, evs) ∧
      evs.filterMap completed_event = [(fid, msg.into_incoming)] := by
  have hW : MAX_FRAME_PACKET_DATA_SIZE = 476 := rfl
  have hWc : msg.data.length ≤
      MAX_FRAME_PACKET_DATA_SIZE * component_count_of msg.data.length := by
    unfold component_count_of
    rw [hW]
    omega
  have hcount : component_count_of msg.data.length < 18446744073709551616 := by
    unfold component_count_of
    rw [hW]
    omega
  refine ⟨send_components_eq fid msg, ?_⟩
  have hidne : idxs ≠ [] := by
    intro h0
    subst h0
    have hc1 : 0 < component_count_of msg.data.length := by
      unfold component_count_of
      rw [hW]
      have hp : 0 < msg.data.length := List.length_pos.mpr hne
      omega
    have hl := hperm.length_eq
    simp at hl
    omega
  obtain ⟨evs, h1, h2⟩ := receive_run_inv a fid (component_count_of msg.data.length)
    msg.data hfid hcount hWc idxs [] ⟨[]⟩ [] hidne (by simpa using hperm)
    (by simp [removeA]) (by simp [lookupA, PartialFrame.new]) rfl
    (fun j2 => by simp [lookupA])
  exact ⟨evs, h1, by rw [h2]; rfl⟩

/-- Concrete instance of the corrected C7 for a one-byte message (one
component, index permutation [0]). -/
theorem C7_frame_reassembly_witness :
    send_components 1 (OutgoingMessage.new.write_u8 42) =
      (List.range (component_count_of (OutgoingMessage.new.write_u8 42).data.length)).map
        (fun j => wrap_component 1
          (component_count_of (OutgoingMessage.new.write_u8 42).data.length) j
          (chunkAt (OutgoingMessage.new.write_u8 42).data j)) ∧
    ∃ evs, FrameSocket.receive_run ⟨[]⟩ 3 ([0].map (fun j =>
        (wrap_component 1 (component_count_of (OutgoingMessage.new.write_u8 42).data.length)
          j (chunkAt (OutgoingMessage.new.write_u8 42).data j)).into_incoming)) =
        .ok (⟨[]⟩, evs) ∧
      evs.filterMap completed_event =
        [(1, (OutgoingMessage.new.write_u8 42).into_incoming)] :=
  C7_frame_reassembly 3 1 (OutgoingMessage.new.write_u8 42) (by decide) (by decide)
    (by decide) [0] (by decide)

/-!
## Persistent socket ping averages (src/udp_ext/src/persistent.rs) and the
lobby scheduling path (src/src/lobby_stage.rs)

Durations are modelled as Nat (milliseconds); Rust Duration division panics
on a zero divisor, modelled as none. Peer ids (Uuid) are modelled as Nat with
their order. Only the state touched by connect / average_lobby_response_time /
try_schedule_start is carried; the frame socket, sent_times bookkeeping and
the godot/logging side effects (set_run, broadcast, emit_signal) do not feed
back into these computations.
-/

abbrev Uuid := Nat

structure PersistentSocket where
  ping_times : List (Uuid × List Nat)
  addresses_by_id : List (Uuid × SocketAddr)
  id_by_address : List (SocketAddr × Uuid)
deriving Repr, DecidableEq

def PersistentSocket.bind : PersistentSocket := ⟨[], [], []⟩

def PersistentSocket.connect (s : PersistentSocket) (id : Uuid)
    (address : SocketAddr) : PersistentSocket :=
  ⟨insertA s.ping_times id [], insertA s.addresses_by_id id address,
    insertA s.id_by_address address id⟩

def PersistentSocket.peers (s : PersistentSocket) : List Uuid :=
  s.addresses_by_id.map Prod.fst

/-- Duration / u32 in Rust: panics (none) when the divisor is zero. The count
is cast `as u32` before dividing. -/
def durationDiv (total count : Nat) : Option Nat :=
  if count % 4294967296 = 0 then none else some (total / (count % 4294967296))

def PersistentSocket.average_lobby_response_time (s : PersistentSocket) :
    Option Nat :=
  if s.ping_times.length = 0 then some 0
  else durationDiv (s.ping_times.map Prod.snd).join.sum
    (s.ping_times.map Prod.snd).join.length

def connect_all (s : PersistentSocket) (conns : List (Uuid × SocketAddr)) :
    PersistentSocket :=
  conns.foldl (fun s c => s.connect c.1 c.2) s

def SCHEDULE_TICKS : Nat := 60

structure LobbyStage where
  ready : Bool
  scheduled_start : Option Nat
  peers_ready : List (Uuid × Bool)
deriving Repr, DecidableEq

/-- try_schedule_start: on the leader (lowest id including the local one) with
everyone ready, it broadcasts ScheduleStart and then computes the lobby
average response time; a panic in that computation propagates (none). -/
def LobbyStage.try_schedule_start (st : LobbyStage) (peers : List Uuid)
    (local_id : Uuid) (socket : PersistentSocket) : Option LobbyStage :=
  if st.ready && peers.all (fun p => (lookupA st.peers_ready p).getD false) then
    let lowest_id := ((peers ++ [local_id]).min?).getD local_id
    if lowest_id = local_id then
      match socket.average_lobby_response_time with
      | none => none
      | some avg =>
        let start_adjustment := if 0 < avg then avg / 32 else 0
        some { st with scheduled_start := some (SCHEDULE_TICKS + start_adjustment) }
    else some st
  else some st

theorem mem_insertA {κ β : Type} [DecidableEq κ] (l : List (κ × β)) (k : κ)
    (v : β) (x : κ × β) : x ∈ insertA l k v → x = (k, v) ∨ x ∈ l := by
  induction l with
  | nil => intro h; simpa [insertA] using h
  | cons p rest ih =>
    intro h
    rcases p with ⟨k2, v2⟩
    by_cases h2 : k2 = k
    · simp only [insertA, if_pos h2, List.mem_cons] at h
      rcases h with h | h
      · exact Or.inl h
      · exact Or.inr (List.mem_cons_of_mem _ h)
    · simp only [insertA, if_neg h2, List.mem_cons] at h
      rcases h with h | h
      · exact Or.inr (by simp [h])
      · rcases ih h with h3 | h3
        · exact Or.inl h3
        · exact Or.inr (List.mem_cons_of_mem _ h3)

theorem insertA_ne_nil {κ β : Type} [DecidableEq κ] (l : List (κ × β)) (k : κ)
    (v : β) : insertA l k v ≠ [] := by
  cases l with
  | nil => simp [insertA]
  | cons p rest =>
    unfold insertA
    split <;> simp

theorem join_nil_of_all_nil {α : Type} (L : List (List α))
    (h : ∀ l ∈ L, l = []) : L.join = [] := by
  induction L with
  | nil => rfl
  | cons x xs ih =>
    rw [show (x :: xs).join = x ++ xs.join from rfl, h x (List.mem_cons_self x xs),
      ih (fun l hl => h l (List.mem_cons_of_mem x hl))]
    rfl

theorem connect_all_ping_empty (conns : List (Uuid × SocketAddr)) :
    ∀ s : PersistentSocket, (∀ x ∈ s.ping_times, x.2 = ([] : List Nat)) →
      ∀ x ∈ (connect_all s conns).ping_times, x.2 = ([] : List Nat) := by
  induction conns with
  | nil => intro s h; exact h
  | cons c rest ih =>
    intro s h
    apply ih
    intro x hx
    simp only [PersistentSocket.connect] at hx
    rcases mem_insertA _ _ _ _ hx with h1 | h1
    · rw [h1]
    · exact h x h1

theorem connect_all_ping_ne_nil (conns : List (Uuid × SocketAddr))
    (hne : conns ≠ []) : ∀ s : PersistentSocket,
      (connect_all s conns).ping_times ≠ [] := by
  induction conns with
  | nil => exact absurd rfl hne
  | cons c rest ih =>
    intro s
    rcases eq_or_ne rest [] with hr | hr
    · subst hr
      exact insertA_ne_nil _ _ _
    · exact ih hr _

theorem average_none_of_empty_rings (s : PersistentSocket)
    (hne : s.ping_times ≠ [])
    (hempty : ∀ x ∈ s.ping_times, x.2 = ([] : List Nat)) :
    s.average_lobby_response_time = none := by
  unfold PersistentSocket.average_lobby_response_time
  rw [if_neg (by simp [hne])]
  have hj : (s.ping_times.map Prod.snd).join = [] :=
    join_nil_of_all_nil _ (by
      intro l hl
      rcases List.mem_map.mp hl with ⟨x, hx, hx2⟩
      rw [← hx2]
      exact hempty x hx)
  rw [hj]
  rfl

/-- Claim C10: once at least one peer has been registered via connect but no
acknowledgement has yet been recorded, every per-peer RTT ring is empty, so
average_lobby_response_time reaches the else branch (ping_times is non-empty),
sums zero durations and divides by a count of zero: a Duration-division panic
(none), not a returned Duration. The state is reachable from the lobby
scheduling path: on the leader (lowest id) with everyone ready,
try_schedule_start calls the average and the panic propagates. -/
theorem C10_lobby_avg_div_by_zero (conns : List (Uuid × SocketAddr))
    (hne : conns ≠ []) (st : LobbyStage) (local_id : Uuid)
    (hready : st.ready = true)
    (hall : ((connect_all PersistentSocket.bind conns).peers).all
      (fun p => (lookupA st.peers_ready p).getD false) = true)
    (hleader : (((connect_all PersistentSocket.bind conns).peers ++
      [local_id]).min?).getD local_id = local_id) :
    (connect_all PersistentSocket.bind conns).average_lobby_response_time = none ∧
    st.try_schedule_start (connect_all PersistentSocket.bind conns).peers local_id
      (connect_all PersistentSocket.bind conns) = none := by
  have havg : (connect_all PersistentSocket.bind conns).average_lobby_response_time =
      none :=
    average_none_of_empty_rings _ (connect_all_ping_ne_nil conns hne _)
      (connect_all_ping_empty conns _ (by
        intro x hx
        simp [PersistentSocket.bind] at hx))
  refine ⟨havg, ?_⟩
  unfold LobbyStage.try_schedule_start
  rw [hready, hall]
  simp only [Bool.and_self, if_true]
  rw [if_pos hleader, havg]

/-- Concrete C10 instance: one connected peer (id 5 at address 9), local id 2
(the leader), peer 5 ready: the average panics and the panic propagates
through try_schedule_start. -/
theorem C10_lobby_avg_div_by_zero_witness :
    (connect_all PersistentSocket.bind [(5, 9)]).average_lobby_response_time =
      none ∧
    LobbyStage.try_schedule_start ⟨true, none, [(5, true)]⟩
      (connect_all PersistentSocket.bind [(5, 9)]).peers 2
      (connect_all PersistentSocket.bind [(5, 9)]) = none :=
  C10_lobby_avg_div_by_zero [(5, 9)] (by decide) ⟨true, none, [(5, true)]⟩ 2 rfl
    (by decide) (by decide)

/-!
## Play stage (src/src/play_stage.rs, src/src/play_stage/frame.rs)

Frames hold godot Variants (inputs, node states) and spawn bookkeeping that
the rollback logic never inspects: inputs are carried as opaque values
(InputV), the node-state map and the spawn records/counters of a frame as
opaque blobs written wholesale. Uuids are Nats. The PlayStageOwner trait
callbacks (fetch_local_input, networked_process, log_node_states) are
oracles supplied in a TickEnv; the owner implementation shipped with the
repo sets the frame state hash whenever log_node_states returns Some, and
panics in load_frame / frames.get().unwrap() on a missing frame, both of
which are modelled. Logging, signals and the network sends have no effect
on the stage state; the messages produced are returned instead.
-/

abbrev InputV := Nat
abbrev NodeStates := Nat
abbrev SpawnData := Nat

structure Frame where
  tick : Nat
  inputs : List (Uuid × InputV)
  updated : Bool
  complete : Bool
  node_states : NodeStates
  spawn_data : SpawnData
  state_hash : Nat
deriving Repr, DecidableEq

def Frame.new (tick : Nat) : Frame :=
  ⟨tick, [], false, false, 0, 0, 0⟩

def Frame.initial_frame (peers : List Uuid) : Frame :=
  { Frame.new 0 with
    inputs := peers.foldl (fun m p => insertA m p 0) [] }

def Frame.set_input (f : Frame) (id : Uuid) (input : InputV)
    (peers : List Uuid) : Frame :=
  let f2 := { f with inputs := insertA f.inputs id input, updated := true }
  if f2.inputs.length = peers.length then { f2 with complete := true } else f2

def Frame.missing_input (f : Frame) (peers : List Uuid) : Option Uuid :=
  peers.find? (fun id => !(containsA f.inputs id))

def Frame.state_hash? (f : Frame) : Option Nat :=
  if f.complete then (if f.state_hash ≠ 0 then some f.state_hash else none)
  else none

def Frame.set_node_states (f : Frame) (ns : NodeStates) : Frame :=
  { f with node_states := ns, updated := false }

def Frame.copy_spawn_data (f prev : Frame) : Frame :=
  { f with spawn_data := prev.spawn_data }

def Frame.set_state_hash (f : Frame) (h : Nat) : Frame :=
  { f with state_hash := h }

structure SentInput where
  frame : Nat
  sender : Uuid
  input : InputV
deriving Repr, DecidableEq

inductive Message
  | input (sent_input : SentInput) (last_received_frame : Nat)
  | stateHash (frame : Nat) (hash : Nat)
  | lobby
deriving Repr, DecidableEq

structure PlayStage where
  frames : List (Nat × Frame)
  latest_frame_delivered : List (Uuid × Nat)
  latest_frame_received : List (Uuid × Nat)
  rolling_advantage_sum : Int
  advantage_queue : List Int
deriving Repr, DecidableEq

structure Context where
  local_id : Uuid
  current_tick : Nat
  latest_tick : Nat
deriving Repr, DecidableEq

/-- handle_message; none models the desync / lobby-message panic. -/
def PlayStage.handle_message (st : PlayStage) (msg : Message)
    (peers : List Uuid) : Option PlayStage :=
  match msg with
  | .input ⟨tick, remote_id, input⟩ new_latest_frame_delivered =>
    let frame := (lookupA st.frames tick).getD (Frame.new tick)
    let st1 := { st with latest_frame_delivered :=
      (insertA st.latest_frame_delivered remote_id tick) }
    let st2 := { st1 with frames :=
      (insertA st1.frames tick (frame.set_input remote_id input peers)) }
    let lfr := (lookupA st2.latest_frame_received remote_id).getD 0
    let st3 := { st2 with latest_frame_received :=
      (insertA st2.latest_frame_received remote_id (max lfr tick)) }
    let lfd := (lookupA st3.latest_frame_delivered remote_id).getD 0
    some { st3 with latest_frame_delivered :=
      (insertA st3.latest_frame_delivered remote_id
        (max lfd new_latest_frame_delivered)) }
  | .stateHash tick remote_hash =>
    match lookupA st.frames tick with
    | none => some st
    | some frame =>
      match frame.state_hash? with
      | none => some st
      | some local_hash =>
        if remote_hash ≠ local_hash then none else some st
  | .lobby => none

def MAX_REWIND : Nat := 30

structure TickEnv where
  peers : List Uuid
  fetch_local_input : InputV
  networked_process : Nat → NodeStates
  log_node_states : Nat → Option Nat

/-- Exact-rational model of the f64 adaptive-stall test in the retire loop:
advantage()/2 >= 0.75 (false on the empty queue, whose advantage is NaN), and
then latest_tick divisible by period = max(1, 14.5 - advantage/2) * 3
truncated. -/
def advantage_stall_condition (sum : Int) (len : Nat) (latest : Nat) : Bool :=
  if len = 0 then false
  else if 3 * (len : Int) ≤ 2 * sum then
    let period := 3 * (max 1 ((29 * (len : Int) - sum) / (2 * (len : Int)))).toNat
    latest % period = 0
  else false

/-- The frame-retirement loop: each frame older than the rewind window is
removed; a frame missing a peer input is put back and stalls the tick
(error), as does the adaptive stall test. -/
def retire_loop (st : PlayStage) (peers : List Uuid) (latest : Nat) :
    List Nat → Option (Except PlayStage PlayStage)
  | [] => some (.ok st)
  | t :: rest =>
    match lookupA st.frames t with
    | none => none
    | some frame =>
      let st2 := { st with frames := removeA st.frames t }
      match frame.missing_input peers with
      | some _ =>
        some (.error { st2 with frames := insertA st2.frames t frame })
      | none =>
        if advantage_stall_condition st2.rolling_advantage_sum
            st2.advantage_queue.length latest
        then some (.error st2)
        else retire_loop st2 peers latest rest

/-- The scan for the oldest tick in [oldest_tick, latest_tick) whose frame is
updated; latest_tick when there is none. -/
def scan_oldest_updated (frames : List (Nat × Frame)) (oldest latest : Nat) :
    Nat :=
  match (List.range' oldest (latest - oldest)).find? (fun t =>
      match lookupA frames t with
      | some f => f.updated
      | none => false) with
  | some t => t
  | none => latest

/-- One resimulation iteration at tick t: copy the spawn data forward, run
networked_process, record the state hash when log_node_states produces one
(broadcasting it), store the node states and clear updated. -/
def resim_step (env : TickEnv) (st : PlayStage) (t : Nat) :
    Option (PlayStage × Option Message) :=
  match lookupA st.frames t with
  | none => none
  | some frame =>
    let frame1 := match lookupA st.frames (t - 1) with
      | some prev => frame.copy_spawn_data prev
      | none => frame
    let new_state := env.networked_process t
    let hash := env.log_node_states t
    let frame2 := match hash with
      | some h => frame1.set_state_hash h
      | none => frame1
    some ({ st with frames := insertA st.frames t (frame2.set_node_states new_state) },
      hash.map (fun h => Message.stateHash t h))

def resim_loop (env : TickEnv) : PlayStage → Nat → List Nat →
    Option (PlayStage × Nat × List Message)
  | st, cur, [] => some (st, cur, [])
  | st, _, t :: rest =>
    match resim_step env st t with
    | none => none
    | some (st2, bc) =>
      match resim_loop env st2 t rest with
      | none => none
      | some (st3, cur3, bcs) => some (st3, cur3, bc.toList ++ bcs)

inductive TickOutcome
  | stalled (st : PlayStage) (cx : Context)
  | panicked
  | completed (st : PlayStage) (cx : Context) (sent : List (Uuid × Message))
      (broadcasts : List Message)
deriving Repr, DecidableEq

/-- frames.entry(latest_tick).or_insert_with(Frame::new). -/
def or_insert_latest (frames : List (Nat × Frame)) (latest_tick : Nat) :
    List (Nat × Frame) :=
  match lookupA frames latest_tick with
  | some _ => frames
  | none => insertA frames latest_tick (Frame.new latest_tick)

/-- The local-input phase of execute_tick (skipped on the first tick): fetch
the local input, set it on the latest frame (frames.get_mut().unwrap(): none
on a missing frame), and build the Input messages sent to every peer. -/
def local_input_phase (env : TickEnv) (st2 : PlayStage) (local_id : Uuid)
    (latest_tick : Nat) : Option (PlayStage × List (Uuid × Message)) :=
  if 1 < latest_tick then
    match lookupA st2.frames latest_tick with
    | none => none
    | some frame =>
      let sent_input : SentInput := ⟨latest_tick, local_id,
        env.fetch_local_input⟩
      let st3 := { st2 with frames := (insertA st2.frames latest_tick
        (frame.set_input local_id env.fetch_local_input env.peers)) }
      some (st3, env.peers.map (fun id =>
        (id, Message.input sent_input
          ((lookupA st3.latest_frame_received id).getD 0))))
  else some (st2, [])

def executeTick (env : TickEnv) (st : PlayStage) (cx : Context) : TickOutcome :=
  let oldest_tick := (cx.latest_tick + 1) - MAX_REWIND
  let old_ticks := (st.frames.map Prod.fst).filter
    (fun t => decide (t < oldest_tick))
  match retire_loop st env.peers cx.latest_tick old_ticks with
  | none => .panicked
  | some (.error st1) => .stalled st1 cx
  | some (.ok st1) =>
    let latest_tick := cx.latest_tick + 1
    let cx1 : Context := { cx with latest_tick := latest_tick }
    let st2 := { st1 with frames := (or_insert_latest st1.frames latest_tick) }
    let oldest_updated := scan_oldest_updated st2.frames oldest_tick latest_tick
    if oldest_updated ≠ latest_tick ∧
        lookupA st2.frames (oldest_updated - 1) = none then
      -- load_frame on the shipped owner unwraps the frame to load
      .panicked
    else
      let cx2 := if oldest_updated ≠ latest_tick
        then { cx1 with current_tick := oldest_updated - 1 } else cx1
      match local_input_phase env st2 cx2.local_id latest_tick with
      | none => .panicked
      | some (st3, sends) =>
        let start := min oldest_updated latest_tick
        match resim_loop env st3 cx2.current_tick
            (List.range' start (latest_tick + 1 - start)) with
        | none => .panicked
        | some (st4, cur, bcs) =>
          .completed st4 { cx2 with current_tick := cur } sends bcs

/-- Claim C4: the StateHash handler aborts (panics) precisely when a frame
exists at the tick, it is complete, its stored hash is non-zero, and the
remote hash differs; otherwise it returns Ok leaving the stage unchanged. -/
theorem C4_statehash_abort (st : PlayStage) (tick rh : Nat) (peers : List Uuid) :
    (st.handle_message (.stateHash tick rh) peers = none ↔
      ∃ f, lookupA st.frames tick = some f ∧ f.complete = true ∧
        f.state_hash ≠ 0 ∧ rh ≠ f.state_hash) ∧
    (st.handle_message (.stateHash tick rh) peers = none ∨
      st.handle_message (.stateHash tick rh) peers = some st) := by
  unfold PlayStage.handle_message Frame.state_hash?
  rcases hf : lookupA st.frames tick with _ | f
  · simp [hf]
  · by_cases hc : f.complete = true <;> by_cases hz : f.state_hash = 0 <;>
      by_cases hr : rh = f.state_hash <;> simp [hf, hc, hz, hr]

/-- Claim C2 counterexample: with latest_frame_delivered[4] = 5 and
latest_frame_received[4] = 0, an Input from 4 with frame 3 and
last_received_frame 7 leaves delivered[4] = max(3,7) = 7 (the old value 5 was
overwritten, not maxed) and received[4] = max(0,3) = 3 (maxed with the frame,
not with last_received_frame), while the claim predicts 5 and 7. -/
theorem C2_counterexample :
    ∃ st2, PlayStage.handle_message ⟨[], [(4, 5)], [(4, 0)], 0, []⟩
        (.input ⟨3, 4, 9⟩ 7) [] = some st2 ∧
      lookupA st2.latest_frame_delivered 4 ≠ some 5 ∧
      lookupA st2.latest_frame_received 4 ≠ some 7 ∧
      lookupA st2.latest_frame_delivered 4 = some 7 ∧
      lookupA st2.latest_frame_received 4 = some 3 :=
  ⟨_, rfl, by decide, by decide, by decide, by decide⟩

/-- Claim C2 (corrected): handling Input{frame, sender, ..}, lrf first
overwrites latest_frame_delivered[sender] with frame and then maxes it with
lrf (the previous value is discarded), and maxes latest_frame_received[sender]
with frame (not with lrf); entries of other peers are untouched. -/
theorem C2_input_map_updates (st : PlayStage) (tick : Nat) (s : Uuid)
    (inp : InputV) (lrf : Nat) (peers : List Uuid) :
    ∃ st2, st.handle_message (.input ⟨tick, s, inp⟩ lrf) peers = some st2 ∧
      lookupA st2.latest_frame_delivered s = some (max tick lrf) ∧
      lookupA st2.latest_frame_received s =
        some (max ((lookupA st.latest_frame_received s).getD 0) tick) ∧
      (∀ p, p ≠ s →
        lookupA st2.latest_frame_delivered p =
          lookupA st.latest_frame_delivered p ∧
        lookupA st2.latest_frame_received p =
          lookupA st.latest_frame_received p) := by
  refine ⟨_, rfl, ?_, ?_, ?_⟩
  · simp only [lookupA_insertA_self, Option.getD_some]
  · simp only [lookupA_insertA_self, Option.getD_some]
  · intro p hp
    constructor
    · simp only []
      rw [lookupA_insertA_other _ _ _ _ hp, lookupA_insertA_other _ _ _ _ hp]
    · simp only []
      rw [lookupA_insertA_other _ _ _ _ hp]

theorem containsA_iff_mem_keys {κ β : Type} [DecidableEq κ]
    (l : List (κ × β)) (k : κ) :
    containsA l k = true ↔ k ∈ l.map Prod.fst := by
  induction l with
  | nil => simp [containsA, lookupA]
  | cons p rest ih =>
    rcases p with ⟨k2, v2⟩
    simp only [containsA, lookupA] at ih ⊢
    by_cases h2 : k2 = k
    · simp [h2]
    · simp [h2, ih, Ne.symm h2]

theorem keys_insertA {κ β : Type} [DecidableEq κ] (l : List (κ × β)) (k : κ)
    (v : β) :
    (insertA l k v).map Prod.fst =
      if containsA l k then l.map Prod.fst else l.map Prod.fst ++ [k] := by
  induction l with
  | nil => simp [insertA, containsA, lookupA]
  | cons p rest ih =>
    rcases p with ⟨k2, v2⟩
    by_cases h2 : k2 = k
    · subst h2
      simp [insertA, containsA, lookupA]
    · simp only [insertA, if_neg h2, List.map_cons, ih, containsA, lookupA,
        if_neg h2]
      by_cases hc : (lookupA rest k).isSome <;> simp [hc]

theorem length_insertA {κ β : Type} [DecidableEq κ] (l : List (κ × β)) (k : κ)
    (v : β) :
    (insertA l k v).length =
      if containsA l k then l.length else l.length + 1 := by
  have h := congrArg List.length (keys_insertA l k v)
  simp only [List.length_map] at h
  rw [h]
  by_cases hc : containsA l k <;> simp [hc]

theorem containsA_insertA {κ β : Type} [DecidableEq κ] (l : List (κ × β))
    (k p : κ) (v : β) :
    containsA (insertA l k v) p = if p = k then true else containsA l p := by
  by_cases hp : p = k
  · subst hp
    simp [containsA, lookupA_insertA_self]
  · simp [containsA, lookupA_insertA_other l k p v hp, hp]

theorem all_mem_of_nodup_subset_length {α : Type} (l1 l2 : List α)
    (h1 : l1.Nodup) (hsub : l1 ⊆ l2) (hlen : l2.length ≤ l1.length) :
    ∀ x ∈ l2, x ∈ l1 := by
  have hperm := (List.subperm_of_subset h1 hsub).perm_of_length_le hlen
  intro x hx
  exact hperm.mem_iff.mpr hx

/-- Claim C3 counterexample: with remote peers [1, 2], inserting the local
peer id 0 (not a member of the peer set, as execute_tick does at the latest
tick) and then peer 1 reaches |inputs| = |peers| = 2, so set_input marks the
frame complete although peer 2 has no inputs entry. -/
theorem C3_counterexample :
    ((((Frame.new 7).set_input 0 5 [1, 2]).set_input 1 6 [1, 2]).complete
        = true) ∧
    containsA ((((Frame.new 7).set_input 0 5 [1, 2]).set_input 1 6
      [1, 2]).inputs) 2 = false := by
  constructor
  · decide
  · decide

/-- Claim C3 (corrected): the completeness invariant — a complete frame has
an inputs entry for every peer — is preserved by set_input only for
insertions keyed by members of the peer set: if the inserted id is a peer,
the stored keys are distinct peers, and the invariant held before, it holds
after. It is not preserved when the local (non-peer) id is inserted, as
execute_tick does: see the counterexample. -/
theorem C3_complete_invariant (peers : List Uuid) (f : Frame) (id : Uuid)
    (inp : InputV)
    (hid : id ∈ peers)
    (hnodup : (f.inputs.map Prod.fst).Nodup)
    (hsub : ∀ p ∈ f.inputs.map Prod.fst, p ∈ peers)
    (hinv : f.complete = true → ∀ p ∈ peers, containsA f.inputs p = true) :
    ((((f.set_input id inp peers).inputs.map Prod.fst).Nodup) ∧
      (∀ p ∈ (f.set_input id inp peers).inputs.map Prod.fst, p ∈ peers)) ∧
    ((f.set_input id inp peers).complete = true →
      ∀ p ∈ peers, containsA (f.set_input id inp peers).inputs p = true) := by
  have hkeys := keys_insertA f.inputs id inp
  have hcont := fun p => containsA_insertA f.inputs id p inp
  have hinputs : (f.set_input id inp peers).inputs = insertA f.inputs id inp := by
    unfold Frame.set_input
    by_cases hl : (insertA f.inputs id inp).length = peers.length <;> simp [hl]
  have hnodup2 : ((insertA f.inputs id inp).map Prod.fst).Nodup := by
    rw [hkeys]
    by_cases hc : containsA f.inputs id = true
    · rw [if_pos hc]
      exact hnodup
    · rw [if_neg hc]
      have hnotmem : id ∉ f.inputs.map Prod.fst := fun hm =>
        hc ((containsA_iff_mem_keys _ _).mpr hm)
      rw [List.nodup_append]
      refine ⟨hnodup, List.nodup_singleton id, ?_⟩
      intro a ha hb
      rw [List.mem_singleton.mp hb] at ha
      exact hnotmem ha
  have hsub2 : ∀ p ∈ (insertA f.inputs id inp).map Prod.fst, p ∈ peers := by
    intro p hp
    rw [hkeys] at hp
    by_cases hc : containsA f.inputs id
    · rw [if_pos hc] at hp
      exact hsub p hp
    · rw [if_neg hc] at hp
      rcases List.mem_append.mp hp with h | h
      · exact hsub p h
      · rw [List.mem_singleton.mp h]
        exact hid
  refine ⟨⟨by rw [hinputs]; exact hnodup2, by rw [hinputs]; exact hsub2⟩, ?_⟩
  intro hcomp p hp
  rw [hinputs]
  unfold Frame.set_input at hcomp
  by_cases hl : (insertA f.inputs id inp).length = peers.length
  · -- the insertion reached |peers| entries: pigeonhole over the keys
    have hlenkeys : peers.length ≤ ((insertA f.inputs id inp).map Prod.fst).length := by
      simp [hl]
    have := all_mem_of_nodup_subset_length _ peers hnodup2 hsub2 hlenkeys p hp
    exact (containsA_iff_mem_keys _ _).mpr this
  · -- the complete flag was already set before the insertion
    simp only [hl, if_false] at hcomp
    have hold := hinv (by simpa using hcomp) p hp
    rw [hcont p]
    by_cases hpk : p = id
    · simp [hpk]
    · simp [hpk, hold]

theorem find_range_first (p : Nat → Bool) :
    ∀ (n o : Nat),
      ((List.range' o n).find? p = none →
        ∀ t, o ≤ t → t < o + n → p t = false) ∧
      (∀ r, (List.range' o n).find? p = some r →
        o ≤ r ∧ r < o + n ∧ p r = true ∧ ∀ t, o ≤ t → t < r → p t = false) := by
  intro n
  induction n with
  | zero =>
    intro o
    refine ⟨fun _ t h1 h2 => absurd h2 (by omega), fun r hr => ?_⟩
    simp [List.range'] at hr
  | succ n ih =>
    intro o
    rw [show List.range' o (n + 1) = o :: List.range' (o + 1) n from rfl]
    by_cases hpo : p o
    · rw [List.find?_cons_of_pos _ hpo]
      refine ⟨fun hc => absurd hc (by simp), fun r hr => ?_⟩
      have hro : r = o := by
        have := Option.some.inj hr
        omega
      subst hro
      exact ⟨Nat.le_refl r, by omega, hpo, fun t h1 h2 => absurd h2 (by omega)⟩
    · rw [List.find?_cons_of_neg _ hpo]
      constructor
      · intro hnone t h1 h2
        rcases Nat.eq_or_lt_of_le h1 with h3 | h3
        · rw [← h3]
          exact Bool.eq_false_iff.mpr hpo
        · exact (ih (o + 1)).1 hnone t h3 (by omega)
      · intro r hr
        obtain ⟨hb1, hb2, hb3, hb4⟩ := (ih (o + 1)).2 r hr
        refine ⟨by omega, by omega, hb3, ?_⟩
        intro t h1 h2
        rcases Nat.eq_or_lt_of_le h1 with h3 | h3
        · rw [← h3]
          exact Bool.eq_false_iff.mpr hpo
        · exact hb4 t h3 h2

theorem scan_le (frames : List (Nat × Frame)) (o l : Nat) (hol : o ≤ l) :
    o ≤ scan_oldest_updated frames o l ∧ scan_oldest_updated frames o l ≤ l := by
  unfold scan_oldest_updated
  rcases hf : (List.range' o (l - o)).find? (fun t =>
      match lookupA frames t with
      | some f => f.updated
      | none => false) with _ | r
  · exact ⟨hol, Nat.le_refl l⟩
  · show o ≤ r ∧ r ≤ l
    obtain ⟨h1, h2, _, _⟩ := (find_range_first _ (l - o) o).2 r hf
    exact ⟨h1, by omega⟩

theorem scan_before (frames : List (Nat × Frame)) (o l : Nat) (hol : o ≤ l) :
    ∀ t f, o ≤ t → t < scan_oldest_updated frames o l →
      lookupA frames t = some f → f.updated = false := by
  intro t f h1 h2 hlook
  unfold scan_oldest_updated at h2
  rcases hf : (List.range' o (l - o)).find? (fun t =>
      match lookupA frames t with
      | some f => f.updated
      | none => false) with _ | r
  · rw [hf] at h2
    have h3 : t < l := h2
    have h4 := (find_range_first _ (l - o) o).1 hf t h1 (by omega)
    rw [hlook] at h4
    exact h4
  · rw [hf] at h2
    have h3 : t < r := h2
    obtain ⟨_, _, _, hb4⟩ := (find_range_first _ (l - o) o).2 r hf
    have h4 := hb4 t h1 h3
    rw [hlook] at h4
    exact h4

theorem retire_ok_frames (peers : List Uuid) (latest : Nat) :
    ∀ (ts : List Nat) (st st1 : PlayStage),
      retire_loop st peers latest ts = some (.ok st1) →
      (∀ t f, lookupA st1.frames t = some f → lookupA st.frames t = some f) ∧
      (∀ t ∈ ts, lookupA st1.frames t = none) := by
  intro ts
  induction ts with
  | nil =>
    intro st st1 h
    unfold retire_loop at h
    simp only [Option.some.injEq, Except.ok.injEq] at h
    subst h
    exact ⟨fun _ _ hf => hf, fun t ht => absurd ht (List.not_mem_nil t)⟩
  | cons t rest ih =>
    intro st st1 h
    unfold retire_loop at h
    dsimp only at h
    split at h
    · exact absurd h (by simp)
    · split at h
      · exact absurd h (by simp)
      · split at h
        · exact absurd h (by simp)
        · obtain ⟨hsub, hrem⟩ := ih _ _ h
          constructor
          · intro t2 f hf
            have h2 := hsub t2 f hf
            dsimp only at h2
            rw [lookupA_removeA] at h2
            by_cases ht2 : t2 = t
            · rw [if_pos ht2] at h2
              exact absurd h2 (by simp)
            · rwa [if_neg ht2] at h2
          · intro t2 ht2
            rcases List.mem_cons.mp ht2 with h2 | h2
            · subst h2
              by_cases hin : lookupA st1.frames t2 = none
              · exact hin
              · rcases Option.ne_none_iff_exists.mp hin with ⟨f, hf⟩
                have h3 := hsub t2 f hf.symm
                dsimp only at h3
                rw [lookupA_removeA, if_pos rfl] at h3
                exact absurd h3 (by simp)
            · exact hrem t2 h2

theorem resim_step_inv (env : TickEnv) (st : PlayStage) (t : Nat)
    (st2 : PlayStage) (bc : Option Message)
    (h : resim_step env st t = some (st2, bc)) :
    ∃ f2, st2.frames = insertA st.frames t f2 ∧ f2.updated = false := by
  unfold resim_step at h
  rcases hl : lookupA st.frames t with _ | frame
  · rw [hl] at h
    exact absurd h (by simp)
  · rw [hl] at h
    simp only [Option.some.injEq, Prod.mk.injEq] at h
    have hf := congrArg PlayStage.frames h.1.symm
    exact ⟨_, hf, rfl⟩

theorem resim_untouched (env : TickEnv) :
    ∀ (l : List Nat) (st : PlayStage) (cur : Nat) (st4 : PlayStage) (c4 : Nat)
      (bcs : List Message),
      resim_loop env st cur l = some (st4, c4, bcs) →
      ∀ t, t ∉ l → lookupA st4.frames t = lookupA st.frames t := by
  intro l
  induction l with
  | nil =>
    intro st cur st4 c4 bcs h t _
    unfold resim_loop at h
    simp only [Option.some.injEq, Prod.mk.injEq] at h
    rw [← h.1]
  | cons t0 rest ih =>
    intro st cur st4 c4 bcs h t ht
    have ht0 : t ≠ t0 := fun he => ht (he ▸ List.mem_cons_self t0 rest)
    have htr : t ∉ rest := fun he => ht (List.mem_cons_of_mem t0 he)
    rcases hstep : resim_step env st t0 with _ | ⟨st2, bc⟩
    · simp only [resim_loop, hstep] at h
      exact absurd h (by simp)
    · rcases hloop : resim_loop env st2 t0 rest with _ | ⟨st3, c3, bcs3⟩
      · simp only [resim_loop, hstep, hloop] at h
        exact absurd h (by simp)
      · simp only [resim_loop, hstep, hloop, Option.some.injEq,
          Prod.mk.injEq] at h
        obtain ⟨f2, hf2, _⟩ := resim_step_inv env st t0 st2 bc hstep
        have h2 := ih st2 t0 st3 c3 bcs3 hloop t htr
        rw [← h.1, h2, hf2, lookupA_insertA_other _ _ _ _ ht0]

theorem resim_cleared (env : TickEnv) :
    ∀ (l : List Nat) (st : PlayStage) (cur : Nat) (st4 : PlayStage) (c4 : Nat)
      (bcs : List Message),
      resim_loop env st cur l = some (st4, c4, bcs) →
      l.Nodup →
      ∀ t ∈ l, ∃ f, lookupA st4.frames t = some f ∧ f.updated = false := by
  intro l
  induction l with
  | nil =>
    intro st cur st4 c4 bcs _ _ t ht
    exact absurd ht (List.not_mem_nil t)
  | cons t0 rest ih =>
    intro st cur st4 c4 bcs h hnd t ht
    obtain ⟨hnd1, hnd2⟩ := List.nodup_cons.mp hnd
    rcases hstep : resim_step env st t0 with _ | ⟨st2, bc⟩
    · simp only [resim_loop, hstep] at h
      exact absurd h (by simp)
    · rcases hloop : resim_loop env st2 t0 rest with _ | ⟨st3, c3, bcs3⟩
      · simp only [resim_loop, hstep, hloop] at h
        exact absurd h (by simp)
      · simp only [resim_loop, hstep, hloop, Option.some.injEq,
          Prod.mk.injEq] at h
        rcases List.mem_cons.mp ht with h2 | h2
        · subst h2
          obtain ⟨f2, hf2, hupd⟩ := resim_step_inv env st t st2 bc hstep
          have h3 := resim_untouched env rest st2 t st3 c3 bcs3 hloop t hnd1
          rw [← h.1, h3, hf2, lookupA_insertA_self]
          exact ⟨f2, rfl, hupd⟩
        · rw [← h.1]
          exact ih st2 t0 st3 c3 bcs3 hloop hnd2 t h2

theorem resim_loop_cons_none (env : TickEnv) (st : PlayStage) (cur t : Nat)
    (rest : List Nat) (h : resim_step env st t = none) :
    resim_loop env st cur (t :: rest) = none := by
  unfold resim_loop
  rw [h]

theorem resim_loop_cons_some (env : TickEnv) (st : PlayStage) (cur t : Nat)
    (rest : List Nat) (st2 : PlayStage) (bc : Option Message)
    (h : resim_step env st t = some (st2, bc)) :
    resim_loop env st cur (t :: rest) =
      match resim_loop env st2 t rest with
      | none => none
      | some (st3, c3, bcs2) => some (st3, c3, bc.toList ++ bcs2) := by
  conv_lhs => unfold resim_loop
  rw [h]

theorem resim_range_last (env : TickEnv) :
    ∀ (n s : Nat) (st : PlayStage) (cur : Nat) (st4 : PlayStage) (c4 : Nat)
      (bcs : List Message),
      resim_loop env st cur (List.range' s (n + 1)) = some (st4, c4, bcs) →
      c4 = s + n := by
  intro n
  induction n with
  | zero =>
    intro s st cur st4 c4 bcs h
    have h2 : resim_loop env st cur [s] = some (st4, c4, bcs) := h
    rcases hstep : resim_step env st s with _ | ⟨st2, bc⟩
    · rw [resim_loop_cons_none env st cur s [] hstep] at h2
      exact Option.noConfusion h2
    · rw [resim_loop_cons_some env st cur s [] st2 bc hstep] at h2
      have h3 : some (st2, s, bc.toList ++ ([] : List Message)) =
          some (st4, c4, bcs) := h2
      simp only [Option.some.injEq, Prod.mk.injEq] at h3
      omega
  | succ n ih =>
    intro s st cur st4 c4 bcs h
    have h2 : resim_loop env st cur (s :: List.range' (s + 1) (n + 1)) =
        some (st4, c4, bcs) := h
    rcases hstep : resim_step env st s with _ | ⟨st2, bc⟩
    · rw [resim_loop_cons_none env st cur s _ hstep] at h2
      exact Option.noConfusion h2
    · rw [resim_loop_cons_some env st cur s _ st2 bc hstep] at h2
      rcases hloop : resim_loop env st2 s (List.range' (s + 1) (n + 1))
          with _ | ⟨st3, c3, bcs3⟩
      · rw [hloop] at h2
        exact Option.noConfusion h2
      · rw [hloop] at h2
        have h3 : some (st3, c3, bc.toList ++ bcs3) = some (st4, c4, bcs) := h2
        simp only [Option.some.injEq, Prod.mk.injEq] at h3
        have h4 := ih (s + 1) st2 s st3 c3 bcs3 hloop
        omega

theorem or_insert_latest_ne (fr : List (Nat × Frame)) (L t : Nat) (h : t ≠ L) :
    lookupA (or_insert_latest fr L) t = lookupA fr t := by
  unfold or_insert_latest
  rcases hf : lookupA fr L with _ | f
  · exact lookupA_insertA_other _ _ _ _ h
  · rfl

theorem local_input_frames (env : TickEnv) (st2 : PlayStage) (lid : Uuid)
    (L : Nat) (st3 : PlayStage) (sends : List (Uuid × Message))
    (h : local_input_phase env st2 lid L = some (st3, sends)) :
    ∀ t, t ≠ L → lookupA st3.frames t = lookupA st2.frames t := by
  intro t ht
  unfold local_input_phase at h
  by_cases h1 : 1 < L
  · rw [if_pos h1] at h
    rcases hf : lookupA st2.frames L with _ | frame
    · rw [hf] at h
      exact absurd h (by simp)
    · rw [hf] at h
      simp only [Option.some.injEq, Prod.mk.injEq] at h
      rw [← h.1]
      exact lookupA_insertA_other _ _ _ _ ht
  · rw [if_neg h1] at h
    simp only [Option.some.injEq, Prod.mk.injEq] at h
    rw [← h.1]

/-- Claim C1 (corrected: only for a tick of execute_tick that completes — no
missing-input or adaptive stall in the retire loop, no missing-frame panic).
After a completed execute_tick, current_tick equals latest_tick and every
remaining frame record at a tick up to latest_tick has updated = false — in
particular any tick whose frame was updated on entry. On the stall paths the
call returns early with updated flags and current_tick untouched: see the
counterexample. -/
theorem C1_rollback_correctness (env : TickEnv) (st : PlayStage) (cx : Context)
    (st2 : PlayStage) (cx2 : Context) (sends : List (Uuid × Message))
    (bcs : List Message)
    (h : executeTick env st cx = .completed st2 cx2 sends bcs) :
    cx2.current_tick = cx2.latest_tick ∧
    ∀ t f, lookupA st2.frames t = some f → t ≤ cx2.latest_tick →
      f.updated = false := by
  have hmr : MAX_REWIND = 30 := rfl
  unfold executeTick at h
  dsimp only at h
  split at h
  · exact absurd h (by simp)
  · exact absurd h (by simp)
  · rename_i st1 hret
    split at h
    · exact absurd h (by simp)
    · rename_i hpan
      split at h
      · exact absurd h (by simp)
      · rename_i st3 sends3 hlocal
        split at h
        · exact absurd h (by simp)
        · rename_i st4 cur bcs4 hresim
          set L := cx.latest_tick + 1 with hL
          set F2 := or_insert_latest st1.frames L with hF2
          set sc := scan_oldest_updated F2 (L - MAX_REWIND) L with hsc
          set cxI := (if sc ≠ L then Context.mk cx.local_id (sc - 1) L
            else Context.mk cx.local_id cx.current_tick L) with hcxI
          injection h with h1 h2 h3 h4
          subst h1 h2 h3 h4
          have hOL : L - MAX_REWIND ≤ L := by omega
          have hscle := scan_le F2 (L - MAX_REWIND) L hOL
          rw [← hsc] at hscle
          have hstart : min sc L = sc := Nat.min_eq_left hscle.2
          rw [hstart, show L + 1 - sc = (L - sc) + 1 from by omega] at hresim
          have hcur : cur = sc + (L - sc) :=
            resim_range_last env (L - sc) sc st3 cxI.current_tick st4 cur bcs4
              hresim
          have hcurL : cur = L := by omega
          have hlat : cxI.latest_tick = L := by
            rw [hcxI]
            by_cases hr : sc ≠ L <;> simp [hr]
          constructor
          · show cur = cxI.latest_tick
            rw [hcurL, hlat]
          · intro t f hlook hle
            have hleL : t ≤ L := by
              rw [← hlat]
              exact hle
            by_cases hmem : t ∈ List.range' sc ((L - sc) + 1)
            · obtain ⟨f2, hf2, hupd⟩ := resim_cleared env
                (List.range' sc ((L - sc) + 1)) st3 cxI.current_tick st4 cur
                bcs4 hresim (List.nodup_range' sc ((L - sc) + 1)) t hmem
              rw [hlook] at hf2
              rw [Option.some.inj hf2]
              exact hupd
            · have hunt := resim_untouched env (List.range' sc ((L - sc) + 1))
                st3 cxI.current_tick st4 cur bcs4 hresim t hmem
              have htneL : t ≠ L := by
                intro he
                apply hmem
                subst he
                exact List.mem_range'_1.mpr ⟨hscle.2, by omega⟩
              have h3 := local_input_frames env _ cxI.local_id L st3 sends3
                hlocal t htneL
              dsimp only at h3
              have h4 := or_insert_latest_ne st1.frames L t htneL
              rw [← hF2] at h4
              have h5 : lookupA st1.frames t = some f := by
                rw [← h4, ← h3, ← hunt]
                exact hlook
              by_cases htO : t < L - MAX_REWIND
              · obtain ⟨hsub, hrem⟩ := retire_ok_frames env.peers
                  cx.latest_tick _ st st1 hret
                have h6 := hsub t f h5
                have h7 : t ∈ (st.frames.map Prod.fst).filter
                    (fun t2 => decide (t2 < L - MAX_REWIND)) := by
                  apply List.mem_filter.mpr
                  refine ⟨?_, by simpa using htO⟩
                  exact (containsA_iff_mem_keys _ _).mp (by simp [containsA, h6])
                have h8 := hrem t h7
                rw [h5] at h8
                exact Option.noConfusion h8
              · have htsc : t < sc := by
                  by_contra hge
                  apply hmem
                  exact List.mem_range'_1.mpr ⟨by omega, by omega⟩
                have hlook2 : lookupA F2 t = some f := h4.trans h5
                exact scan_before F2 (L - MAX_REWIND) L hOL t f (by omega)
                  (by rw [← hsc]; exact htsc) hlook2

/-- Claim C1 counterexample: peer 1 is connected, the frame at tick 0 is
older than the rewind window (latest_tick = 30) and has no input from peer 1,
and the frame at tick 5 is updated. The retire loop stalls: execute_tick
returns with current_tick (29) still different from latest_tick (30) and the
frame at tick 5 still updated, violating the claimed postcondition. -/
theorem C1_counterexample :
    executeTick ⟨[1], 0, fun _ => 0, fun _ => none⟩
        ⟨[(0, Frame.new 0), (5, ⟨5, [(1, 7)], true, false, 0, 0, 0⟩)],
          [], [], 0, []⟩
        ⟨0, 29, 30⟩ =
      .stalled ⟨[(5, ⟨5, [(1, 7)], true, false, 0, 0, 0⟩), (0, Frame.new 0)],
        [], [], 0, []⟩ ⟨0, 29, 30⟩ ∧
    (⟨0, 29, 30⟩ : Context).current_tick ≠ (⟨0, 29, 30⟩ : Context).latest_tick ∧
    (lookupA ([(5, (⟨5, [(1, 7)], true, false, 0, 0, 0⟩ : Frame)),
        (0, Frame.new 0)]) 5).map Frame.updated = some true := by
  refine ⟨by decide, by decide, by decide⟩

/-- Concrete completed tick for the corrected C1: no peers, fresh stage,
first tick: execute_tick completes and current_tick = latest_tick = 1. -/
theorem C1_rollback_correctness_witness :
    executeTick ⟨[], 0, fun _ => 0, fun _ => none⟩
        ⟨[(0, Frame.new 0), (1, Frame.new 0)], [], [], 0, []⟩ ⟨0, 0, 0⟩ =
      .completed ⟨[(0, Frame.new 0), (1, Frame.new 0)], [], [], 0, []⟩
        ⟨0, 1, 1⟩ [] [] ∧
    (⟨0, 1, 1⟩ : Context).current_tick = (⟨0, 1, 1⟩ : Context).latest_tick :=
  ⟨by decide, (C1_rollback_correctness ⟨[], 0, fun _ => 0, fun _ => none⟩
      ⟨[(0, Frame.new 0), (1, Frame.new 0)], [], [], 0, []⟩ ⟨0, 0, 0⟩
      ⟨[(0, Frame.new 0), (1, Frame.new 0)], [], [], 0, []⟩ ⟨0, 1, 1⟩ [] []
      (by decide)).1⟩

/-- Concrete instance of the corrected C3: peers [1, 2], an inputs table
holding peer 1, inserting peer 2 (a member of the peer set) completes the
frame with every peer present. -/
theorem C3_complete_invariant_witness :
    containsA (((⟨7, [(1, 3)], true, false, 0, 0, 0⟩ : Frame).set_input 2 4
      [1, 2]).inputs) 1 = true :=
  (C3_complete_invariant [1, 2] ⟨7, [(1, 3)], true, false, 0, 0, 0⟩ 2 4
    (by decide) (by decide) (by decide) (by decide)).2 (by decide) 1 (by decide)
